import Mathlib

/-!
Verification development for a Gomoku (five-in-a-row) engine.

The development shallowly embeds two JavaScript modules:

* the AI engine (`ai.js`): board scanning, pattern evaluation, quick move
  scoring, win detection, minimax search with alpha-beta pruning, iterative
  deepening, the opening book and the four difficulty strategies
  (namespace `AI`);
* the game engine (`game.js`): `GameEngine` state, `placeStone`, `undoMove`,
  `checkWin` with the `ALLOW_OVERLINE` flag (namespace `GE`).

JavaScript numbers are modelled as `ℚ` (all score arithmetic in the engine is
exact decimal arithmetic well within double precision), board cells as `Nat`
(0 = empty, 1 = black, 2 = white), coordinates as `Int`, and a board as a list
of rows.  `Date.now()` and `Math.random()` are modelled by oracle streams in
an `Env` structure; all theorems quantify over the oracles.
-/

/-- A board is a list of rows of cells (0 = empty, 1 = black, 2 = white). -/
abbrev Board := List (List Nat)

namespace AI

/-- Cell value for an empty intersection. -/
def EMPTY : Nat := 0

/-- Cell value for a black stone. -/
def BLACK : Nat := 1

/-- Cell value for a white stone. -/
def WHITE : Nat := 2

/-- `INF` sentinel from the source (`1e9`). -/
def INF : ℚ := 1000000000

/-- `WIN_SCORE` from the source (`1e8`). -/
def WIN_SCORE : ℚ := 100000000

namespace SCORES

/-- Pattern score `SCORES.FIVE`. -/
def FIVE : ℚ := 10000000

/-- Pattern score `SCORES.OPEN_FOUR`. -/
def OPEN_FOUR : ℚ := 1000000

/-- Pattern score `SCORES.HALF_OPEN_FOUR`. -/
def HALF_OPEN_FOUR : ℚ := 100000

/-- Pattern score `SCORES.OPEN_THREE`. -/
def OPEN_THREE : ℚ := 10000

/-- Pattern score `SCORES.HALF_OPEN_THREE`. -/
def HALF_OPEN_THREE : ℚ := 1000

/-- Pattern score `SCORES.OPEN_TWO`. -/
def OPEN_TWO : ℚ := 100

/-- Pattern score `SCORES.HALF_OPEN_TWO`. -/
def HALF_OPEN_TWO : ℚ := 10

/-- Pattern score `SCORES.OPEN_ONE`. -/
def OPEN_ONE : ℚ := 1

end SCORES

/-- The four scan directions of the AI engine. -/
def DIRECTIONS : List (Int × Int) := [(0, 1), (1, 0), (1, 1), (1, -1)]

/-- Board center coordinate (`Math.floor(15 / 2) = 7`). -/
def CENTER : Int := 7

/-- `inBounds(x, y)` of the AI engine (board size fixed to 15). -/
def inBounds (x y : Int) : Bool :=
  0 ≤ x && x < 15 && 0 ≤ y && y < 15

/-- Read `board[x][y]`; totalised to return `EMPTY` out of bounds (every
out-of-bounds access in the source is guarded by `inBounds`, so the default
is never observable). -/
def getCell (b : Board) (x y : Int) : Nat :=
  if inBounds x y then (b.getD x.toNat []).getD y.toNat 0 else 0

/-- Write `board[x][y] = v` (all writes in the source are in bounds). -/
def setCell (b : Board) (x y : Int) (v : Nat) : Board :=
  if inBounds x y then b.set x.toNat ((b.getD x.toNat []).set y.toNat v) else b

/-- A 15×15 board: 15 rows of 15 cells each. -/
def WF (b : Board) : Bool :=
  b.length == 15 && b.all (fun row => row.length == 15)

/-- Every cell of the board holds one of the three legal values. -/
def valuesOK (b : Board) : Bool :=
  b.all (fun row => row.all (fun c => c == 0 || c == 1 || c == 2))

/-- `opponent(player)`. -/
def opponent (player : Nat) : Nat :=
  if player = BLACK then WHITE else BLACK

/-- The row/column index range `0 .. 14` as integers. -/
def idxs : List Int := (List.range 15).map (fun n : Nat => (n : Int))

/-- All (row, column) pairs in the order the source's nested loops visit
them. -/
def cellIdxs : List (Int × Int) :=
  idxs.flatMap (fun i => idxs.map (fun j => (i, j)))

/-- `countStones(board)`: number of non-empty cells. -/
def countStones (b : Board) : Nat :=
  cellIdxs.countP (fun c => !(getCell b c.1 c.2 == EMPTY))

/-- A move is a coordinate pair, as in the source's `{x, y}` objects. -/
abbrev Move := Int × Int

/-- Offsets `-radius .. radius` used by the candidate generator. -/
def offs (radius : Int) : List Int :=
  (List.range (2 * radius.toNat + 1)).map (fun n : Nat => (n : Int) - radius)

/-- All (di, dj) offset pairs in the order the source's nested loops visit
them. -/
def offPairs (radius : Int) : List (Int × Int) :=
  (offs radius).flatMap (fun di => (offs radius).map (fun dj => (di, dj)))

/-- Accumulator state of `generateCandidates`: collected candidates, the
de-duplication key set, and the has-a-stone flag. -/
structure GenSt where
  cands : List Move
  visited : List Int
  hasStone : Bool

/-- The body of `generateCandidates`'s innermost loop: probe the cell at
offset `d` from the stone at `(i, j)`, and collect it when it is an empty
in-bounds cell not seen before. -/
def genProbe (b : Board) (i j : Int) (st2 : GenSt) (d : Int × Int) : GenSt :=
  let ni := i + d.1
  let nj := j + d.2
  if inBounds ni nj && getCell b ni nj == EMPTY then
    let key := ni * 15 + nj
    if st2.visited.contains key then st2
    else { st2 with visited := key :: st2.visited, cands := st2.cands ++ [(ni, nj)] }
  else st2

/-- One iteration of `generateCandidates`'s outer loop body at cell
`(i, j)`: if the cell holds a stone, collect every empty in-bounds cell in
the surrounding square neighbourhood that was not visited yet. -/
def genVisit (b : Board) (radius : Int) (st : GenSt) (i j : Int) : GenSt :=
  if getCell b i j ≠ EMPTY then
    (offPairs radius).foldl (genProbe b i j) { st with hasStone := true }
  else st

/-- `generateCandidates(board, radius)`: empty cells within `radius`
(Chebyshev) of an existing stone, de-duplicated, in scan order; the center
cell if the board has no stones. -/
def generateCandidates (b : Board) (radius : Int) : List Move :=
  let st := cellIdxs.foldl (fun st c => genVisit b radius st c.1 c.2) ⟨[], [], false⟩
  if st.hasStone then st.cands else [(CENTER, CENTER)]

/-- Length of the maximal run of `stone`-valued cells starting at `(i, j)`
and stepping by `(dx, dy)` — the `while` loop of `evaluateBoard` (a run never
exceeds 15 cells, and step 15 is always out of bounds, so 16 probes
suffice). -/
def runLenFrom (b : Board) (i j dx dy : Int) (stone : Nat) : Nat :=
  ((List.range 16).takeWhile (fun k : Nat =>
    inBounds (i + dx * (k : Int)) (j + dy * (k : Int)) &&
    (getCell b (i + dx * (k : Int)) (j + dy * (k : Int)) == stone))).length

/-- One iteration of `evaluateBoard`'s inner loop at direction `(dx, dy)`
and cell `(i, j)`: the pair of contributions added to `(myScore, oppScore)`. -/
def evalCellDir (b : Board) (player : Nat) (dx dy i j : Int) : ℚ × ℚ :=
  let pi := i - dx
  let pj := j - dy
  if inBounds pi pj ∧ getCell b pi pj = getCell b i j ∧ getCell b i j ≠ EMPTY then (0, 0)
  else if getCell b i j = EMPTY then (0, 0)
  else
    let stone := getCell b i j
    let count := runLenFrom b i j dx dy stone
    if count ≥ 5 then
      if stone = player then (SCORES.FIVE, 0) else (0, SCORES.FIVE)
    else
      let afterI := i + dx * count
      let afterJ := j + dy * count
      let openBefore := inBounds pi pj ∧ getCell b pi pj = EMPTY
      let openAfter := inBounds afterI afterJ ∧ getCell b afterI afterJ = EMPTY
      let openEnds : Nat := (if openBefore then 1 else 0) + (if openAfter then 1 else 0)
      if openEnds = 0 then (0, 0)
      else
        let score : ℚ :=
          if count = 4 then (if openEnds = 2 then SCORES.OPEN_FOUR else SCORES.HALF_OPEN_FOUR)
          else if count = 3 then (if openEnds = 2 then SCORES.OPEN_THREE else SCORES.HALF_OPEN_THREE)
          else if count = 2 then (if openEnds = 2 then SCORES.OPEN_TWO else SCORES.HALF_OPEN_TWO)
          else if count = 1 then (if openEnds = 2 then SCORES.OPEN_ONE else 0)
          else 0
        if stone = player then (score, 0) else (0, score)

/-- Manhattan distance from `(i, j)` to the board center, as a rational. -/
def centerDist (i j : Int) : ℚ :=
  (((i - CENTER).natAbs + (j - CENTER).natAbs : Nat) : ℚ)

/-- `evaluateBoard(board, player)`: pattern score of every maximal run plus a
center-proximity bonus for the perspective player; defense weighted by 1.1. -/
def evaluateBoard (b : Board) (player : Nat) : ℚ :=
  let pair := DIRECTIONS.foldl (fun acc d =>
    cellIdxs.foldl (fun acc2 c =>
      let dlt := evalCellDir b player d.1 d.2 c.1 c.2
      (acc2.1 + dlt.1, acc2.2 + dlt.2)) acc) ((0 : ℚ), (0 : ℚ))
  let myScore := pair.1 + cellIdxs.foldl (fun acc c =>
    if getCell b c.1 c.2 = player then acc + max 0 (7 - centerDist c.1 c.2) else acc) 0
  myScore - pair.2 * (11 / 10)

/-- `evaluateBoardAdvanced(board, player)`: adds a sliding length-5 window
scan on top of the basic evaluation, at half magnitude. -/
def evaluateBoardAdvanced (b : Board) (player : Nat) : ℚ :=
  let opp := opponent player
  let pair := DIRECTIONS.foldl (fun acc d =>
    cellIdxs.foldl (fun acc2 c =>
      if inBounds (c.1 + d.1 * 4) (c.2 + d.2 * 4) then
        let window := (List.range 5).map (fun k : Nat =>
          getCell b (c.1 + d.1 * (k : Int)) (c.2 + d.2 * (k : Int)))
        let myCount := window.countP (fun cell => cell == player)
        let oppCount := window.countP (fun cell => cell == opp)
        let acc3 :=
          if myCount > 0 ∧ oppCount = 0 then
            (acc2.1 +
              (if myCount = 5 then SCORES.FIVE
               else if myCount = 4 then SCORES.HALF_OPEN_FOUR
               else if myCount = 3 then SCORES.HALF_OPEN_THREE * 2
               else if myCount = 2 then SCORES.HALF_OPEN_TWO
               else 0), acc2.2)
          else acc2
        if oppCount > 0 ∧ myCount = 0 then
          (acc3.1, acc3.2 +
            (if oppCount = 5 then SCORES.FIVE
             else if oppCount = 4 then SCORES.HALF_OPEN_FOUR
             else if oppCount = 3 then SCORES.HALF_OPEN_THREE * 2
             else if oppCount = 2 then SCORES.HALF_OPEN_TWO
             else 0))
        else acc3
      else acc2) acc) ((0 : ℚ), (0 : ℚ))
  evaluateBoard b player + (pair.1 - pair.2 * (11 / 10)) * (1 / 2)

/-- Number of consecutive `p`-valued cells strictly after `(x, y)` in
direction `(dx, dy)`, probing at most 4 steps — the forward loop of
`isWinningMove` and `checkWin`. -/
def fwdCount (b : Board) (x y dx dy : Int) (p : Nat) : Nat :=
  ((List.range' 1 4).takeWhile (fun k : Nat =>
    inBounds (x + dx * (k : Int)) (y + dy * (k : Int)) &&
    (getCell b (x + dx * (k : Int)) (y + dy * (k : Int)) == p))).length

/-- `isWinningMove(board, x, y, player)`: placing `player` at `(x, y)` makes
five (or more) in a row through that cell. -/
def isWinningMove (b : Board) (x y : Int) (p : Nat) : Bool :=
  DIRECTIONS.any (fun d =>
    1 + fwdCount b x y d.1 d.2 p + fwdCount b x y (-d.1) (-d.2) p ≥ 5)

/-- `checkWin(board, player)` of the AI engine: some cell of `player` starts
a run of at least five. -/
def checkWin (b : Board) (player : Nat) : Bool :=
  cellIdxs.any (fun c =>
    getCell b c.1 c.2 == player &&
    DIRECTIONS.any (fun d => 1 + fwdCount b c.1 c.2 d.1 d.2 player ≥ 5))

/-- `isBoardFull(board)`. -/
def isBoardFull (b : Board) : Bool :=
  cellIdxs.all (fun c => !(getCell b c.1 c.2 == EMPTY))

/-- One directional probe of `scoreMoveQuick` over the remaining step list:
returns the consecutive `p`-stone count and whether the loop stopped at an
empty in-bounds cell (the loop leaves the open flag false when it runs off
the board or exhausts its four steps). -/
def scanSide (b : Board) (p : Nat) (x y dx dy : Int) : List Int → Nat × Bool
  | [] => (0, false)
  | k :: rest =>
    let ni := x + dx * k
    let nj := y + dy * k
    if ¬ inBounds ni nj then (0, false)
    else if getCell b ni nj = p then
      let r := scanSide b p x y dx dy rest
      (r.1 + 1, r.2)
    else (0, getCell b ni nj == EMPTY)

/-- Run length through `(x, y)` (counting the hypothetical placement) and
open-end count for stones of `p`, on the axis `(dx, dy)`. -/
def axisTotals (b : Board) (x y dx dy : Int) (p : Nat) : Nat × Nat :=
  let f := scanSide b p x y dx dy [1, 2, 3, 4]
  let bk := scanSide b p x y (-dx) (-dy) [1, 2, 3, 4]
  (f.1 + bk.1 + 1, (if f.2 then 1 else 0) + (if bk.2 then 1 else 0))

/-- `scoreMoveQuick(board, x, y, player)`: fast per-move ordering heuristic. -/
def scoreMoveQuick (b : Board) (x y : Int) (player : Nat) : ℚ :=
  let opp := opponent player
  let dirScore := DIRECTIONS.foldl (fun acc d =>
    let my := axisTotals b x y d.1 d.2 player
    let myTotal := my.1
    let myOpen := my.2
    let acc1 := acc +
      (if myTotal ≥ 5 then SCORES.FIVE
       else if myTotal = 4 then
         (if myOpen = 2 then SCORES.OPEN_FOUR else if myOpen = 1 then SCORES.HALF_OPEN_FOUR else 0)
       else if myTotal = 3 then
         (if myOpen = 2 then SCORES.OPEN_THREE else if myOpen = 1 then SCORES.HALF_OPEN_THREE else 0)
       else if myTotal = 2 then
         (if myOpen = 2 then SCORES.OPEN_TWO else if myOpen = 1 then SCORES.HALF_OPEN_TWO else 0)
       else 0)
    let op := axisTotals b x y d.1 d.2 opp
    let oppTotal := op.1
    let oppOpen := op.2
    acc1 +
      (if oppTotal ≥ 5 then SCORES.FIVE * (9 / 10)
       else if oppTotal = 4 then (if oppOpen ≥ 1 then SCORES.HALF_OPEN_FOUR else 0) * (9 / 10)
       else if oppTotal = 3 then
         (if oppOpen = 2 then SCORES.OPEN_THREE
          else if oppOpen = 1 then SCORES.HALF_OPEN_THREE else 0) * (9 / 10)
       else 0)) 0
  dirScore + max 0 (7 - centerDist x y)

/-- Oracle streams for the ambient effects: `clock n` is the value of the
`n`-th `Date.now()` call of a top-level search, `rng n` the value of the
`n`-th `Math.random()` call. -/
structure Env where
  clock : Nat → Nat
  rng : Nat → ℚ

/-- Mutable search-engine state of `MinimaxEngine` scoped to one top-level
call, plus the clock-consult counter. -/
structure SState where
  nodesSearched : Nat
  startTime : Nat
  timeLimit : Nat
  timedOut : Bool
  useAdvancedEval : Bool
  clockIdx : Nat

/-- A fresh `new MinimaxEngine()`. -/
def newEngine : SState := ⟨0, 0, 0, false, false, 0⟩

/-- One `Date.now()` consult. -/
def callNow (env : Env) (s : SState) : Nat × SState :=
  (env.clock s.clockIdx, { s with clockIdx := s.clockIdx + 1 })

/-- A candidate move together with its ordering score (`{...m, score}`). -/
structure ScoredMove where
  x : Int
  y : Int
  score : ℚ
deriving DecidableEq

instance : Inhabited ScoredMove := ⟨⟨0, 0, 0⟩⟩

/-- `getOrderedMoves(board, player, radius)`: candidates scored by
`scoreMoveQuick` and stably sorted descending by score (JS `sort` is
stable). -/
def getOrderedMoves (b : Board) (player : Nat) (radius : Int) : List ScoredMove :=
  let candidates := generateCandidates b radius
  let scored := candidates.map (fun m => ScoredMove.mk m.1 m.2 (scoreMoveQuick b m.1 m.2 player))
  scored.mergeSort (fun a c => a.score ≥ c.score)

/-- Static evaluation at a search leaf, per the engine's evaluation mode. -/
def evalNode (s : SState) (b : Board) (maximizingPlayer : Nat) : ℚ :=
  if s.useAdvancedEval then evaluateBoardAdvanced b maximizingPlayer
  else evaluateBoard b maximizingPlayer

/-- The every-1000-nodes wall-clock check at the top of `alphabeta`. -/
def abTimeCheck (env : Env) (s : SState) : SState :=
  if s.timeLimit > 0 ∧ s.nodesSearched % 1000 = 0 then
    let r := callNow env s
    if r.1 - r.2.startTime > r.2.timeLimit then { r.2 with timedOut := true } else r.2
  else s

/-- The maximizing inner loop of `alphabeta`; `f` is the recursive call one
ply deeper (invoked by `alphabeta` with the roles already flipped). -/
def abLoopMax (f : SState → Board → ℚ → ℚ → ℚ × SState × Board) (curP : Nat) :
    List ScoredMove → SState → Board → ℚ → ℚ → ℚ → ℚ × SState × Board
  | [], s, b, _, _, value => (value, s, b)
  | m :: rest, s, b, alpha, beta, value =>
    match f s (setCell b m.x m.y curP) alpha beta with
    | (score, s1, b2) =>
      let b3 := setCell b2 m.x m.y EMPTY
      if s1.timedOut then (value, s1, b3)
      else
        let value1 := max value score
        let alpha1 := max alpha value1
        if alpha1 ≥ beta then (value1, s1, b3)
        else abLoopMax f curP rest s1 b3 alpha1 beta value1

/-- The minimizing inner loop of `alphabeta`. -/
def abLoopMin (f : SState → Board → ℚ → ℚ → ℚ × SState × Board) (curP : Nat) :
    List ScoredMove → SState → Board → ℚ → ℚ → ℚ → ℚ × SState × Board
  | [], s, b, _, _, value => (value, s, b)
  | m :: rest, s, b, alpha, beta, value =>
    match f s (setCell b m.x m.y curP) alpha beta with
    | (score, s1, b2) =>
      let b3 := setCell b2 m.x m.y EMPTY
      if s1.timedOut then (value, s1, b3)
      else
        let value1 := min value score
        let beta1 := min beta value1
        if alpha ≥ beta1 then (value1, s1, b3)
        else abLoopMin f curP rest s1 b3 alpha beta1 value1

/-- `MinimaxEngine.alphabeta`: depth-limited minimax with alpha-beta pruning
and cooperative time-out. -/
def alphabeta (env : Env) (s : SState) (b : Board) (depth : Nat) (alpha beta : ℚ)
    (maximizingPlayer currentPlayer : Nat) (isMaximizing : Bool) : ℚ × SState × Board :=
  let sa := { s with nodesSearched := s.nodesSearched + 1 }
  let sb := abTimeCheck env sa
  if sb.timedOut then (0, sb, b)
  else if checkWin b maximizingPlayer then (WIN_SCORE + (depth : ℚ), sb, b)
  else if checkWin b (opponent maximizingPlayer) then (-(WIN_SCORE + (depth : ℚ)), sb, b)
  else
    match depth with
    | 0 => (evalNode sb b maximizingPlayer, sb, b)
    | d + 1 =>
      if isBoardFull b then (evalNode sb b maximizingPlayer, sb, b)
      else
        let moves := getOrderedMoves b currentPlayer 2
        let maxMoves : Nat := if d + 1 ≤ 1 then 10 else if d + 1 ≤ 2 then 15 else 20
        let movesToSearch := moves.take maxMoves
        if movesToSearch.isEmpty then (evalNode sb b maximizingPlayer, sb, b)
        else if isMaximizing then
          abLoopMax (fun s' b' a' b'' =>
              alphabeta env s' b' d a' b'' maximizingPlayer (opponent currentPlayer) false)
            currentPlayer movesToSearch sb b alpha beta (-INF)
        else
          abLoopMin (fun s' b' a' b'' =>
              alphabeta env s' b' d a' b'' maximizingPlayer (opponent currentPlayer) true)
            currentPlayer movesToSearch sb b alpha beta INF

/-- The immediate-win / immediate-block linear scans of `findBestMove` and
`findBestMoveIterative`: place `p` on each candidate in turn, undo the probe,
and return the first candidate for which `checkWin` fires. -/
def probeScan (p : Nat) : List ScoredMove → Board → Option Move × Board
  | [], b => (none, b)
  | m :: rest, b =>
    let b1 := setCell b m.x m.y p
    if checkWin b1 p then (some (m.x, m.y), setCell b1 m.x m.y EMPTY)
    else probeScan p rest (setCell b1 m.x m.y EMPTY)

/-- The root move loop shared by `findBestMove` and each iteration of
`findBestMoveIterative`: search each root candidate one ply shallower with a
fresh alpha-beta window, keep the strictly best, stop on time-out. -/
def rootLoop (env : Env) (player : Nat) (d : Nat) :
    List ScoredMove → SState → Board → Move → ℚ → Move × ℚ × SState × Board
  | [], s, b, best, bestScore => (best, bestScore, s, b)
  | m :: rest, s, b, best, bestScore =>
    match alphabeta env s (setCell b m.x m.y player) d (-INF) INF player (opponent player) false with
    | (score, s1, b2) =>
      let b3 := setCell b2 m.x m.y EMPTY
      if s1.timedOut then (best, bestScore, s1, b3)
      else if score > bestScore then rootLoop env player d rest s1 b3 (m.x, m.y) score
      else rootLoop env player d rest s1 b3 best bestScore

/-- `MinimaxEngine.findBestMove(board, player, depth, timeLimitMs,
advancedEval)`. -/
def findBestMove (env : Env) (s : SState) (b : Board) (player : Nat) (depth : Nat)
    (timeLimitMs : Nat) (advancedEval : Bool) : Move × SState × Board :=
  let s0 := { s with nodesSearched := 0 }
  let r := callNow env s0
  let s1 := { r.2 with startTime := r.1, timeLimit := timeLimitMs, timedOut := false,
                       useAdvancedEval := advancedEval }
  let moves := getOrderedMoves b player 2
  match moves with
  | [] => ((CENTER, CENTER), s1, b)
  | m0 :: rest =>
    if rest.length = 0 then ((m0.x, m0.y), s1, b)
    else
      let pw := probeScan player moves b
      match pw.1 with
      | some mv => (mv, s1, pw.2)
      | none =>
        let pb := probeScan (opponent player) moves pw.2
        match pb.1 with
        | some mv => (mv, s1, pb.2)
        | none =>
          let topMoves := moves.take (min moves.length 20)
          let rl := rootLoop env player (depth - 1) topMoves s1 pb.2
            (topMoves.headI.x, topMoves.headI.y) (-INF)
          (rl.1, rl.2.2.1, rl.2.2.2)

/-- The iterative-deepening depth loop of `findBestMoveIterative`; the first
argument counts the remaining depths (`maxDepth - depth + 1`), the second is
the current depth. -/
def iterLoop (env : Env) (player : Nat) (moves : List ScoredMove) :
    Nat → Nat → SState → Board → Option Move → Option Move × SState × Board
  | 0, _, s, b, best => (best, s, b)
  | r + 1, depth, s, b, best =>
    let s0 := { s with nodesSearched := 0, timedOut := false }
    let topMoves := moves.take 20
    let rl := rootLoop env player (depth - 1) topMoves s0 b
      (topMoves.headI.x, topMoves.headI.y) (-INF)
    let best1 := if ¬ rl.2.2.1.timedOut then some rl.1 else best
    if rl.2.1 ≥ WIN_SCORE then (best1, rl.2.2.1, rl.2.2.2)
    else
      let rc := callNow env rl.2.2.1
      if 10 * (rc.1 - rc.2.startTime) > 7 * rc.2.timeLimit then (best1, rc.2, rl.2.2.2)
      else iterLoop env player moves r (depth + 1) rc.2 rl.2.2.2 best1

/-- `MinimaxEngine.findBestMoveIterative(board, player, maxDepth,
timeLimitMs, advancedEval)`. -/
def findBestMoveIterative (env : Env) (s : SState) (b : Board) (player : Nat)
    (maxDepth : Nat) (timeLimitMs : Nat) (advancedEval : Bool) : Move × SState × Board :=
  let r := callNow env s
  let s1 := { r.2 with startTime := r.1, timeLimit := timeLimitMs, timedOut := false,
                       useAdvancedEval := advancedEval }
  let moves := getOrderedMoves b player 2
  match moves with
  | [] => ((CENTER, CENTER), s1, b)
  | m0 :: _ =>
    let pw := probeScan player moves b
    match pw.1 with
    | some mv => (mv, s1, pw.2)
    | none =>
      let pb := probeScan (opponent player) moves pw.2
      match pb.1 with
      | some mv => (mv, s1, pb.2)
      | none =>
        let il := iterLoop env player moves maxDepth 1 s1 pb.2 none
        (il.1.getD (m0.x, m0.y), il.2.1, il.2.2)

/-- The immediate-win scan of `easyMove` over the raw candidate list. -/
def easyWinScan (p : Nat) : List Move → Board → Option Move × Board
  | [], b => (none, b)
  | c :: rest, b =>
    let b1 := setCell b c.1 c.2 p
    if checkWin b1 p then (some c, setCell b1 c.1 c.2 EMPTY)
    else easyWinScan p rest (setCell b1 c.1 c.2 EMPTY)

/-- The immediate-block scan of `easyMove`: on each blocking cell found, block
with probability 0.7 (one `Math.random()` consult); threads the consult
index. -/
def easyBlockScan (env : Env) (opp : Nat) : List Move → Nat → Board → Option Move × Nat × Board
  | [], ri, b => (none, ri, b)
  | c :: rest, ri, b =>
    let b1 := setCell b c.1 c.2 opp
    if checkWin b1 opp then
      let b2 := setCell b1 c.1 c.2 EMPTY
      if env.rng ri < 7 / 10 then (some c, ri + 1, b2)
      else easyBlockScan env opp rest (ri + 1) (setCell b2 c.1 c.2 EMPTY)
    else easyBlockScan env opp rest ri (setCell b1 c.1 c.2 EMPTY)

/-- The weighted-random selection loop of `easyMove`. -/
def weightedPick : List (Move × ℚ) → ℚ → Option Move
  | [], _ => none
  | c :: rest, rand =>
    let rand1 := rand - c.2
    if rand1 ≤ 0 then some c.1 else weightedPick rest rand1

/-- `easyMove(board, player)`: radius-1 candidates, immediate win always
taken, immediate block taken with probability 0.7, otherwise a
center-weighted random pick. -/
def easyMove (env : Env) (b : Board) (player : Nat) : Move × Board :=
  let candidates := generateCandidates b 1
  match candidates with
  | [] => ((CENTER, CENTER), b)
  | _ :: _ =>
    let ws := easyWinScan player candidates b
    match ws.1 with
    | some c => (c, ws.2)
    | none =>
      let bs := easyBlockScan env (opponent player) candidates 0 ws.2
      match bs.1 with
      | some c => (c, bs.2.2)
      | none =>
        let weighted := candidates.map (fun c =>
          (c, (max 1 (15 - centerDist c.1 c.2) : ℚ)))
        let totalWeight := weighted.foldl (fun sum c => sum + c.2) 0
        let rand := env.rng bs.2.1 * totalWeight
        match weightedPick weighted rand with
        | some m => (m, ws.2)
        | none => (weighted.headI.1, ws.2)

/-- `mediumMove(board, player)`: fresh engine, fixed depth 2, 1000 ms, basic
evaluation. -/
def mediumMove (env : Env) (b : Board) (player : Nat) : Move × Board :=
  let r := findBestMove env newEngine b player 2 1000 false
  (r.1, r.2.2)

/-- `hardMove(board, player)`: fresh engine, fixed depth 4, 3000 ms, advanced
evaluation. -/
def hardMove (env : Env) (b : Board) (player : Nat) : Move × Board :=
  let r := findBestMove env newEngine b player 4 3000 true
  (r.1, r.2.2)

/-- The four diagonal-adjacent-to-center cells of the second opening-book
entry. -/
def bookDiagMoves : List Move :=
  [(CENTER - 1, CENTER - 1), (CENTER - 1, CENTER + 1),
   (CENTER + 1, CENTER - 1), (CENTER + 1, CENTER + 1)]

/-- The eight knight's-move cells of the fourth opening-book entry. -/
def bookKnightMoves : List Move :=
  [(CENTER - 2, CENTER - 1), (CENTER - 2, CENTER + 1),
   (CENTER - 1, CENTER - 2), (CENTER - 1, CENTER + 2),
   (CENTER + 1, CENTER - 2), (CENTER + 1, CENTER + 2),
   (CENTER + 2, CENTER - 1), (CENTER + 2, CENTER + 1)]

/-- Pick `list[Math.floor(Math.random() * list.length)]`. -/
def randPick (env : Env) (l : List Move) : Move :=
  l.getD (env.rng 0 * (l.length : ℚ)).floor.toNat (CENTER, CENTER)

/-- `masterMove(board, player)`: the opening book (entries tried in order; an
entry that matches but produces no move falls through — no later entry can
match, so control passes to the engine), else iterative deepening to depth 6
with a 2000 ms budget and advanced evaluation. -/
def masterMove (env : Env) (b : Board) (player : Nat) : Move × Board :=
  let engineMove :=
    let r := findBestMoveIterative env newEngine b player 6 2000 true
    (r.1, r.2.2)
  if countStones b = 0 then ((CENTER, CENTER), b)
  else if countStones b = 1 ∧ getCell b CENTER CENTER ≠ EMPTY then
    let valid := bookDiagMoves.filter (fun m => getCell b m.1 m.2 == EMPTY)
    if valid.length > 0 then (randPick env valid, b) else engineMove
  else if countStones b = 1 ∧ getCell b CENTER CENTER = EMPTY then ((CENTER, CENTER), b)
  else if countStones b = 2 ∧ getCell b CENTER CENTER ≠ EMPTY then
    let valid := bookKnightMoves.filter (fun m =>
      0 ≤ m.1 && m.1 < 15 && 0 ≤ m.2 && m.2 < 15 && (getCell b m.1 m.2 == EMPTY))
    if valid.length > 0 then (randPick env valid, b) else engineMove
  else engineMove

/-- The `GomokuAI` class: just the stored difficulty string. -/
structure GomokuAI where
  difficulty : String

/-- `GomokuAI.getMove(board, player)`: validate the board, then dispatch on
the stored difficulty (unrecognized values fall through to medium). -/
def getMove (env : Env) (ai : GomokuAI) (b : Board) (player : Nat) : Move × Board :=
  if b.length = 0 then ((CENTER, CENTER), b)
  else if ai.difficulty = "easy" then easyMove env b player
  else if ai.difficulty = "medium" then mediumMove env b player
  else if ai.difficulty = "hard" then hardMove env b player
  else if ai.difficulty = "master" then masterMove env b player
  else mediumMove env b player

/-- `GomokuAI.setDifficulty(level)`: update only for a recognized level. -/
def setDifficulty (ai : GomokuAI) (level : String) : GomokuAI :=
  if ["easy", "medium", "hard", "master"].contains level then { ai with difficulty := level }
  else ai

end AI

namespace GE

/-- The four direction vectors of `game.js` (`[dx, dy]`, scanned both
ways). -/
def DIRECTIONS : List (Int × Int) := [(1, 0), (0, 1), (1, 1), (1, -1)]

/-- A `moveHistory` entry. -/
structure MoveRec where
  x : Int
  y : Int
  player : Nat
  moveNumber : Nat
deriving DecidableEq

/-- The mutable fields of a `GameEngine` instance. -/
structure EngineState where
  size : Nat
  board : Board
  currentPlayer : Nat
  moveHistory : List MoveRec
  gameOver : Bool
  winner : Nat
  winLine : Option (List (Int × Int))
deriving DecidableEq

/-- `_createEmptyBoard()`. -/
def createEmptyBoard (size : Nat) : Board :=
  List.replicate size (List.replicate size 0)

/-- `reset()` composed with the constructor for a given board size. -/
def reset (size : Nat) : EngineState :=
  ⟨size, createEmptyBoard size, 1, [], false, 0, none⟩

/-- `_inBounds(x, y)` for a given board size. -/
def inBoundsG (size : Nat) (x y : Int) : Bool :=
  0 ≤ x && x < (size : Int) && 0 ≤ y && y < (size : Int)

/-- Read `board[y][x]`; totalised to 0 out of bounds (the source guards every
access). -/
def getB (brd : Board) (size : Nat) (x y : Int) : Nat :=
  if inBoundsG size x y then (brd.getD y.toNat []).getD x.toNat 0 else 0

/-- Write `board[y][x] = v` (the source only writes in bounds). -/
def setB (brd : Board) (x y : Int) (v : Nat) : Board :=
  brd.set y.toNat ((brd.getD y.toNat []).set x.toNat v)

/-- `isValidMove(x, y)`: in bounds and empty. -/
def isValidMove (s : EngineState) (x y : Int) : Bool :=
  inBoundsG s.size x y && (getB s.board s.size x y == 0)

/-- One directional half of `_collectLine`: the contiguous `player` cells
strictly beyond `(x, y)` in direction `(dx, dy)`, in scan order (`size` probe
steps always reach the border or a break). -/
def collectFwd (s : EngineState) (x y dx dy : Int) (player : Nat) : List (Int × Int) :=
  ((List.range' 1 s.size).map (fun i : Nat => (x + dx * (i : Int), y + dy * (i : Int)))).takeWhile
    (fun c => inBoundsG s.size c.1 c.2 && (getB s.board s.size c.1 c.2 == player))

/-- `_collectLine(x, y, dx, dy, player)`: the full contiguous line through
the origin, ordered along the axis (backward cells were `unshift`ed). -/
def collectLine (s : EngineState) (x y dx dy : Int) (player : Nat) : List (Int × Int) :=
  (collectFwd s x y (-dx) (-dy) player).reverse ++ [(x, y)] ++ collectFwd s x y dx dy player

/-- The direction loop of `GameEngine.checkWin`: the first direction whose
line wins produces the winning line. -/
def checkWinLoop (allowOverline : Bool) (s : EngineState) (x y : Int) (player : Nat) :
    List (Int × Int) → Option (List (Int × Int))
  | [] => none
  | d :: rest =>
    let line := collectLine s x y d.1 d.2 player
    if allowOverline then
      if line.length ≥ 5 then some (line.take 5)
      else checkWinLoop allowOverline s x y player rest
    else
      if line.length = 5 then some line
      else checkWinLoop allowOverline s x y player rest

/-- `GameEngine.checkWin(x, y, player)` under the global `ALLOW_OVERLINE`
flag: `some line` when won (`{won: true, line}`), `none` otherwise. -/
def checkWinG (allowOverline : Bool) (s : EngineState) (x y : Int) (player : Nat) :
    Option (List (Int × Int)) :=
  checkWinLoop allowOverline s x y player DIRECTIONS

/-- `isBoardFull()`. -/
def isBoardFullG (s : EngineState) : Bool :=
  (List.range s.size).all (fun y => (List.range s.size).all (fun x =>
    !(getB s.board s.size (x : Int) (y : Int) == 0)))

/-- The result object of `placeStone`. -/
structure PlaceResult where
  valid : Bool
  winner : Nat
  winLine : Option (List (Int × Int))
  reason : Option String
deriving DecidableEq

/-- `GameEngine.placeStone(x, y)`: validate, place, record, detect win or
draw, otherwise switch players. -/
def placeStone (allowOverline : Bool) (s : EngineState) (x y : Int) :
    PlaceResult × EngineState :=
  if s.gameOver then (⟨false, 0, none, some "Game is already over"⟩, s)
  else if ¬ isValidMove s x y then
    if ¬ inBoundsG s.size x y then (⟨false, 0, none, some "Position out of bounds"⟩, s)
    else (⟨false, 0, none, some "Cell is already occupied"⟩, s)
  else
    let player := s.currentPlayer
    let s1 := { s with board := setB s.board x y player,
                       moveHistory := s.moveHistory ++
                         [⟨x, y, player, s.moveHistory.length + 1⟩] }
    match checkWinG allowOverline s1 x y player with
    | some line =>
      (⟨true, player, some line, none⟩,
       { s1 with gameOver := true, winner := player, winLine := some line })
    | none =>
      if isBoardFullG s1 then
        (⟨true, 3, none, none⟩, { s1 with gameOver := true, winner := 3 })
      else
        (⟨true, 0, none, none⟩, { s1 with currentPlayer := if player = 1 then 2 else 1 })

/-- `GameEngine.undoMove()`: pop the last move, clear its cell, restore the
turn and clear the game-over data. -/
def undoMove (s : EngineState) : Option MoveRec × EngineState :=
  match s.moveHistory.getLast? with
  | none => (none, s)
  | some mv =>
    (some mv,
     { s with moveHistory := s.moveHistory.dropLast,
              board := setB s.board mv.x mv.y 0,
              currentPlayer := mv.player,
              gameOver := false,
              winner := 0,
              winLine := none })

/-- Game states reachable by constructing an engine (any legal size) and
playing: placing stones and undoing moves, under a fixed overline flag. -/
inductive Reachable (allowOverline : Bool) : EngineState → Prop where
  | init : ∀ size : Nat, 5 ≤ size → Reachable allowOverline (reset size)
  | place : ∀ s x y, Reachable allowOverline s →
      Reachable allowOverline (placeStone allowOverline s x y).2
  | undo : ∀ s, Reachable allowOverline s → Reachable allowOverline (undoMove s).2

end GE

namespace AI

/-- The board has at least one empty in-bounds cell. -/
def hasEmptyCell (b : Board) : Bool :=
  cellIdxs.any (fun c => getCell b c.1 c.2 == EMPTY)

/-- `len` consecutive cells of value `p` starting at `(i, j)` along
`(dx, dy)`, all in bounds. -/
def runAt (b : Board) (p : Nat) (i j dx dy : Int) (len : Nat) : Bool :=
  (List.range len).all (fun k : Nat =>
    inBounds (i + dx * (k : Int)) (j + dy * (k : Int)) &&
    (getCell b (i + dx * (k : Int)) (j + dy * (k : Int)) == p))

/-- The player has a contiguous run of at least five on some axis. -/
def hasRunOfFive (b : Board) (p : Nat) : Bool :=
  DIRECTIONS.any (fun d => cellIdxs.any (fun c => runAt b p c.1 c.2 d.1 d.2 5))

/-- The player has a maximal contiguous run of exactly five on some axis:
five in a row whose two outer neighbours are off-board or not the player's. -/
def hasMaxRunExactlyFive (b : Board) (p : Nat) : Bool :=
  DIRECTIONS.any (fun d => cellIdxs.any (fun c =>
    runAt b p c.1 c.2 d.1 d.2 5 &&
    !(inBounds (c.1 - d.1) (c.2 - d.2) && (getCell b (c.1 - d.1) (c.2 - d.2) == p)) &&
    !(inBounds (c.1 + d.1 * 5) (c.2 + d.2 * 5) && (getCell b (c.1 + d.1 * 5) (c.2 + d.2 * 5) == p))))

/-- The pattern table used for the mover's own runs in `scoreMoveQuick`
(lookup by run length through the cell and open-end count). -/
def quickWeight (total op : Nat) : ℚ :=
  if total ≥ 5 then SCORES.FIVE
  else if total = 4 then
    (if op = 2 then SCORES.OPEN_FOUR else if op = 1 then SCORES.HALF_OPEN_FOUR else 0)
  else if total = 3 then
    (if op = 2 then SCORES.OPEN_THREE else if op = 1 then SCORES.HALF_OPEN_THREE else 0)
  else if total = 2 then
    (if op = 2 then SCORES.OPEN_TWO else if op = 1 then SCORES.HALF_OPEN_TWO else 0)
  else 0

/-- The defensive pattern table `scoreMoveQuick` actually applies to the
opponent's run through the cell: fours with any open end are valued as
half-open fours, and opponent runs of length ≤ 2 are worth nothing. -/
def quickDefWeight (total op : Nat) : ℚ :=
  if total ≥ 5 then SCORES.FIVE
  else if total = 4 then (if op ≥ 1 then SCORES.HALF_OPEN_FOUR else 0)
  else if total = 3 then
    (if op = 2 then SCORES.OPEN_THREE else if op = 1 then SCORES.HALF_OPEN_THREE else 0)
  else 0

/-- Modelled from the spec: the move scorer the specification describes,
whose defensive term on each axis is 0.9 times the same pattern-table weight
the offensive term would use for the opponent's run length and open-end
count (the code's `scoreMoveQuick` is compared against this). -/
def scoreMoveQuickClaimed (b : Board) (x y : Int) (player : Nat) : ℚ :=
  let opp := opponent player
  let dirScore := DIRECTIONS.foldl (fun acc d =>
    let my := axisTotals b x y d.1 d.2 player
    let op := axisTotals b x y d.1 d.2 opp
    acc + quickWeight my.1 my.2 + quickWeight op.1 op.2 * (9 / 10)) 0
  dirScore + max 0 (7 - centerDist x y)

/-- The pattern table of the basic evaluator (lookup by maximal run length
and open-end count): length ≥ 5 is terminal-valued regardless of openness,
and closed shorter runs are worth nothing. -/
def patternWeight (count op : Nat) : ℚ :=
  if count ≥ 5 then SCORES.FIVE
  else if op = 0 then 0
  else if count = 4 then (if op = 2 then SCORES.OPEN_FOUR else SCORES.HALF_OPEN_FOUR)
  else if count = 3 then (if op = 2 then SCORES.OPEN_THREE else SCORES.HALF_OPEN_THREE)
  else if count = 2 then (if op = 2 then SCORES.OPEN_TWO else SCORES.HALF_OPEN_TWO)
  else if count = 1 then (if op = 2 then SCORES.OPEN_ONE else 0)
  else 0

/-- Open-end count of the maximal run starting at `(i, j)` along `(dx, dy)`:
whether the cell before the start and the cell after the end are empty and in
bounds. -/
def openEndsAt (b : Board) (i j dx dy : Int) : Nat :=
  let count := runLenFrom b i j dx dy (getCell b i j)
  (if inBounds (i - dx) (j - dy) ∧ getCell b (i - dx) (j - dy) = EMPTY then 1 else 0) +
  (if inBounds (i + dx * count) (j + dy * count) ∧ getCell b (i + dx * count) (j + dy * count) = EMPTY
   then 1 else 0)

/-- Pattern-table weight contributed by the cell `(i, j)` on the axis
`(dx, dy)` for player `q`: the weight of the maximal run of `q` it starts
(zero if it is not the start of a `q`-run). -/
def runStartWeight (b : Board) (q : Nat) (dx dy i j : Int) : ℚ :=
  if getCell b i j = q ∧ ¬ (inBounds (i - dx) (j - dy) = true ∧ getCell b (i - dx) (j - dy) = q) then
    patternWeight (runLenFrom b i j dx dy q) (openEndsAt b i j dx dy)
  else 0

/-- Total pattern-table weight of all maximal runs of player `q`, each maximal
run counted once (from its start cell), over all four axes. -/
def runTotal (b : Board) (q : Nat) : ℚ :=
  DIRECTIONS.foldl (fun acc d =>
    acc + (cellIdxs.map (fun c => runStartWeight b q d.1 d.2 c.1 c.2)).sum) 0

/-- The center-proximity bonus: `max(0, 7 − Manhattan distance to center)`
summed over the perspective player's stones. -/
def centerBonus (b : Board) (player : Nat) : ℚ :=
  cellIdxs.foldl (fun acc c =>
    if getCell b c.1 c.2 = player then acc + max 0 (7 - centerDist c.1 c.2) else acc) 0

/-- The root-move score transcript of one search depth: the root moves paired
with their search scores, in exploration order, stopping (and discarding the
partial score) at a time-out; threads the same state and board as
`rootLoop`. -/
def rootTranscript (env : Env) (player : Nat) (d : Nat) :
    List ScoredMove → SState → Board → List (Move × ℚ) × SState × Board
  | [], s, b => ([], s, b)
  | m :: rest, s, b =>
    let r := alphabeta env s (setCell b m.x m.y player) d (-INF) INF player (opponent player) false
    let b3 := setCell r.2.2 m.x m.y EMPTY
    if r.2.1.timedOut then ([], r.2.1, b3)
    else
      let t := rootTranscript env player d rest r.2.1 b3
      (((m.x, m.y), r.1) :: t.1, t.2.1, t.2.2)

/-- The argmax-first selection the root loop performs over a score
transcript: the earliest strictly-best pair, starting from the given default
move at the `-INF` sentinel score. -/
def selBest (pairs : List (Move × ℚ)) (dflt : Move) : Move :=
  (pairs.foldl (fun acc pr => if pr.2 > acc.2 then pr else acc) (dflt, -INF)).1

/-- `m` is the best root move of a completed depth with transcript `pairs`:
the earliest maximum above the `-INF` sentinel; if no score exceeds the
sentinel, the first explored (highest-heuristic-ordered) root candidate. -/
def BestRootMove (pairs : List (Move × ℚ)) (m : Move) : Prop :=
  (∃ l1 pr l2, pairs = l1 ++ pr :: l2 ∧ pr.1 = m ∧ -INF < pr.2 ∧
      (∀ q ∈ l1, q.2 < pr.2) ∧ (∀ q ∈ l2, q.2 ≤ pr.2)) ∨
  ((∀ q ∈ pairs, q.2 ≤ -INF) ∧ pairs ≠ [] ∧ m = pairs.headI.1)

/-- The per-depth trace of the iterative-deepening loop: for every depth the
loop runs, the root score transcript and whether the depth completed without
timing out; mirrors `iterLoop`'s state threading and stopping rules. -/
def iterTrace (env : Env) (player : Nat) (moves : List ScoredMove) :
    Nat → Nat → SState → Board → List (List (Move × ℚ) × Bool) × SState × Board
  | 0, _, s, b => ([], s, b)
  | r + 1, depth, s, b =>
    let s0 := { s with nodesSearched := 0, timedOut := false }
    let topMoves := moves.take 20
    let rt := rootTranscript env player (depth - 1) topMoves s0 b
    let entry := (rt.1, !rt.2.1.timedOut)
    let dbs := (rt.1.map Prod.snd).foldl max (-INF)
    if dbs ≥ WIN_SCORE then ([entry], rt.2.1, rt.2.2)
    else
      let rc := callNow env rt.2.1
      if 10 * (rc.1 - rc.2.startTime) > 7 * rc.2.timeLimit then ([entry], rc.2, rt.2.2)
      else
        let tr := iterTrace env player moves r (depth + 1) rc.2 rt.2.2
        (entry :: tr.1, tr.2.1, tr.2.2)

/-- The transcript of the deepest depth that completed without timing out,
if any depth did. -/
def lastCompleted (tr : List (List (Move × ℚ) × Bool)) : Option (List (Move × ℚ)) :=
  ((tr.filter (fun e => e.2)).getLast?).map Prod.fst

/-- The per-depth transcript of the iterative-deepening driver: the same
initialization as `findBestMoveIterative` (clock consult, state reset, root
ordering), then the `iterTrace` replay of the depth loop. -/
def iterativeTrace (env : Env) (s : SState) (b : Board) (player : Nat)
    (maxDepth : Nat) (timeLimitMs : Nat) (advancedEval : Bool) :
    List (List (Move × ℚ) × Bool) :=
  let r := callNow env s
  let s1 := { r.2 with startTime := r.1, timeLimit := timeLimitMs, timedOut := false,
                       useAdvancedEval := advancedEval }
  (iterTrace env player (getOrderedMoves b player 2) maxDepth 1 s1 b).1

/-- The empty 15×15 board. -/
def emptyB : Board := List.replicate 15 (List.replicate 15 0)

/-- A draw-patterned full board (no five-in-a-row anywhere, for either
player) with its single empty cell at `(0, 0)`; filling that cell creates no
five-in-a-row either. -/
def bDraw : Board :=
  (List.range 15).map (fun r : Nat => (List.range 15).map (fun c : Nat =>
    if r = 0 ∧ c = 0 then 0 else [1, 1, 2, 2].getD ((c + 2 * r) % 4) 0))

/-- Six black stones in a row: board row 0, columns 0–5. -/
def bSix : Board :=
  setCell (setCell (setCell (setCell (setCell (setCell emptyB 0 0 1) 0 1 1) 0 2 1) 0 3 1) 0 4 1) 0 5 1

/-- Three white stones in a row at (7,5), (7,6), (7,7), both ends open. -/
def bOpp3 : Board := setCell (setCell (setCell emptyB 7 5 2) 7 6 2) 7 7 2

/-- Four black stones in a row at (7,5)–(7,8), both ends open. -/
def bFour : Board :=
  setCell (setCell (setCell (setCell emptyB 7 5 1) 7 6 1) 7 7 1) 7 8 1

/-- A single black stone at the corner. -/
def bOne : Board := setCell emptyB 0 0 1

/-- A concrete oracle environment: the clock always reads 0 and the random
stream always yields 0. -/
def envZero : Env := ⟨fun _ => 0, fun _ => 0⟩

end AI

namespace GE

/-- Structural well-formedness of an engine state: the board is a
`size × size` grid. -/
def WFG (s : EngineState) : Prop :=
  s.board.length = s.size ∧ ∀ row ∈ s.board, row.length = s.size

end GE


theorem list_set_getD_self {α : Type} (l : List α) (i : Nat) (d : α) (h : i < l.length) :
    l.set i (l.getD i d) = l := by
  induction l generalizing i with
  | nil => simp at h
  | cons a t ih =>
    cases i with
    | zero => simp [List.getD]
    | succ n => simp_all [List.set, List.getD]

theorem list_getD_mem {α : Type} (l : List α) (i : Nat) (d : α) (h : i < l.length) :
    l.getD i d ∈ l := by
  rw [List.getD_eq_getElem l d h]
  exact List.getElem_mem h

namespace GE

theorem setB_length (brd : Board) (x y : Int) (v : Nat) :
    (setB brd x y v).length = brd.length := by
  simp [setB]

theorem setB_rows {n : Nat} (brd : Board) (x y : Int) (v : Nat)
    (hy : y.toNat < brd.length) (hr : ∀ row ∈ brd, row.length = n) :
    ∀ row ∈ setB brd x y v, row.length = n := by
  intro row hrow
  rcases List.mem_or_eq_of_mem_set hrow with h | h
  · exact hr _ h
  · subst h
    rw [List.length_set]
    exact hr _ (list_getD_mem brd y.toNat [] hy)

theorem setB_roundtrip (brd : Board) (x y : Int) (v : Nat) {n : Nat}
    (hl : brd.length = n) (hr : ∀ row ∈ brd, row.length = n)
    (hx : x.toNat < n) (hy : y.toNat < n)
    (hcell : (brd.getD y.toNat []).getD x.toNat 0 = 0) :
    setB (setB brd x y v) x y 0 = brd := by
  have hylen : y.toNat < brd.length := by omega
  have hrowlen : (brd.getD y.toNat []).length = n :=
    hr _ (list_getD_mem brd y.toNat [] hylen)
  have list_getD_set_self : ∀ (l : List (List Nat)) (i : Nat) (a d : List Nat),
      i < l.length → (l.set i a).getD i d = a := by
    intro l i a d h
    rw [List.getD_eq_getElem?_getD]
    simp [List.getElem?_set_self, h]
  show setB (brd.set y.toNat ((brd.getD y.toNat []).set x.toNat v)) x y 0 = brd
  unfold setB
  rw [list_getD_set_self _ _ _ _ hylen]
  rw [List.set_set, List.set_set]
  rw [← hcell, list_set_getD_self _ _ _ (by omega), list_set_getD_self _ _ _ hylen]

theorem reachable_WFG {f : Bool} {s : EngineState} (h : Reachable f s) : WFG s := by
  induction h with
  | init size hsz =>
    refine ⟨by simp [reset, createEmptyBoard], ?_⟩
    intro row hrow
    have hrw : row = List.replicate size 0 :=
      List.eq_of_mem_replicate (by simpa [reset, createEmptyBoard] using hrow)
    simp [hrw, reset]
  | place s x y _ ih =>
    by_cases hgo : s.gameOver = true
    · simp [placeStone, hgo]
      exact ih
    · by_cases hv : isValidMove s x y = true
      · have hin : inBoundsG s.size x y = true := by
          have h2 := hv
          simp [isValidMove] at h2
          exact h2.1
        have hy : y.toNat < s.board.length := by
          simp [inBoundsG] at hin
          rw [ih.1]
          omega
        have hb : ∀ t : EngineState, t.board = setB s.board x y s.currentPlayer →
            t.size = s.size → WFG t := by
          intro t hbd hsz
          refine ⟨?_, ?_⟩
          · rw [hbd, hsz, setB_length, ih.1]
          · intro row hrow
            rw [hsz]
            exact setB_rows s.board x y s.currentPlayer hy ih.2 row (hbd ▸ hrow)
        simp only [placeStone, hgo, if_false, Bool.false_eq_true, hv, not_true, if_neg,
          ite_false, ite_true, not_false_eq_true]
        split
        · exact hb _ rfl rfl
        · split
          · exact hb _ rfl rfl
          · exact hb _ rfl rfl
      · simp [placeStone, hgo, hv]
        split
        · exact ih
        · exact ih
  | undo s _ ih =>
    rcases hmv : s.moveHistory.getLast? with _ | mv
    · simp [undoMove, hmv]
      exact ih
    · simp only [undoMove, hmv]
      by_cases hy : mv.y.toNat < s.board.length
      · refine ⟨?_, ?_⟩
        · simp [setB_length, ih.1]
        · intro row hrow
          exact setB_rows s.board mv.x mv.y 0 hy ih.2 row hrow
      · have hsame : setB s.board mv.x mv.y 0 = s.board := by
          unfold setB
          rw [List.set_eq_of_length_le (by omega)]
        refine ⟨by simp [hsame, ih.1], ?_⟩
        intro row hrow
        simp only [hsame] at hrow
        exact ih.2 row hrow

theorem reachable_winner {f : Bool} {s : EngineState} (h : Reachable f s) :
    s.gameOver = false → s.winner = 0 := by
  induction h with
  | init size hsz => simp [reset]
  | place s x y _ ih =>
    by_cases hgo : s.gameOver = true
    · simp [placeStone, hgo]
    · by_cases hv : isValidMove s x y = true
      · simp only [placeStone, hgo, if_false, Bool.false_eq_true, hv, not_true, if_neg,
          ite_false, ite_true, not_false_eq_true]
        split
        · intro hc
          simp at hc
        · split
          · intro hc
            simp at hc
          · intro _
            simp
            exact ih (by simpa using hgo)
      · simp [placeStone, hgo, hv]
        split
        · exact ih
        · exact ih
  | undo s _ ih =>
    rcases hmv : s.moveHistory.getLast? with _ | mv
    · simp [undoMove, hmv]
      exact ih
    · simp [undoMove, hmv]

end GE

namespace GE

/-- C9: if `placeStone` returns an invalid result (game over, out of bounds,
or occupied cell), the entire game state is exactly as it was before the
call. -/
theorem placeStone_invalid_frame (f : Bool) (s : EngineState) (x y : Int)
    (h : (placeStone f s x y).1.valid = false) : (placeStone f s x y).2 = s := by
  by_cases hgo : s.gameOver = true
  · simp [placeStone, hgo]
  · by_cases hv : isValidMove s x y = true
    · exfalso
      revert h
      simp only [placeStone, hgo, if_false, Bool.false_eq_true, hv, not_true, if_neg,
        ite_false, ite_true, not_false_eq_true]
      split
      · simp
      · split
        · simp
        · simp
    · simp only [placeStone, hgo, if_false, Bool.false_eq_true, hv, not_false_eq_true,
        ite_true, ite_false]
      split
      · rfl
      · rfl

/-- Witness for C9 at a concrete input: placing at (−1, 0) on a fresh 15×15
engine is rejected and leaves the state unchanged. -/
theorem placeStone_invalid_frame_witness :
    (placeStone false (reset 15) (-1) 0).1.valid = false ∧
    (placeStone false (reset 15) (-1) 0).2 = reset 15 :=
  ⟨by decide, placeStone_invalid_frame false (reset 15) (-1) 0 (by decide)⟩

/-- C10: from a reachable, non-finished state, a valid `placeStone` followed
by `undoMove` returns exactly the move just placed and restores the board,
the current player, the move history, the game-over flag and the winner —
including when the placement ended the game. -/
theorem place_undo_roundtrip (f : Bool) (s : EngineState) (x y : Int)
    (hr : Reachable f s) (hgo : s.gameOver = false) (hv : isValidMove s x y = true) :
    (undoMove (placeStone f s x y).2).1 =
      some ⟨x, y, s.currentPlayer, s.moveHistory.length + 1⟩ ∧
    (undoMove (placeStone f s x y).2).2.board = s.board ∧
    (undoMove (placeStone f s x y).2).2.currentPlayer = s.currentPlayer ∧
    (undoMove (placeStone f s x y).2).2.moveHistory = s.moveHistory ∧
    (undoMove (placeStone f s x y).2).2.gameOver = s.gameOver ∧
    (undoMove (placeStone f s x y).2).2.winner = s.winner := by
  have hwf := reachable_WFG hr
  have hwin0 : s.winner = 0 := reachable_winner hr hgo
  have hv' := hv
  simp only [isValidMove, Bool.and_eq_true, beq_iff_eq] at hv'
  obtain ⟨hin, hc0⟩ := hv'
  have hxy : x.toNat < s.size ∧ y.toNat < s.size := by
    simp only [inBoundsG, Bool.and_eq_true, decide_eq_true_eq] at hin
    omega
  have hcell : (s.board.getD y.toNat []).getD x.toNat 0 = 0 := by
    simpa [getB, hin] using hc0
  have hkey : ∀ t : EngineState,
      t.board = setB s.board x y s.currentPlayer →
      t.moveHistory = s.moveHistory ++ [⟨x, y, s.currentPlayer, s.moveHistory.length + 1⟩] →
      (undoMove t).1 = some ⟨x, y, s.currentPlayer, s.moveHistory.length + 1⟩ ∧
      (undoMove t).2.board = s.board ∧ (undoMove t).2.currentPlayer = s.currentPlayer ∧
      (undoMove t).2.moveHistory = s.moveHistory ∧ (undoMove t).2.gameOver = false ∧
      (undoMove t).2.winner = 0 := by
    intro t hbd hhist
    have hlast : t.moveHistory.getLast? =
        some ⟨x, y, s.currentPlayer, s.moveHistory.length + 1⟩ := by
      rw [hhist]
      exact List.getLast?_concat _
    simp only [undoMove, hlast]
    refine ⟨by trivial, ?_, by trivial, ?_, by trivial, by trivial⟩
    · show setB t.board x y 0 = s.board
      rw [hbd]
      exact setB_roundtrip s.board x y s.currentPlayer hwf.1 hwf.2 hxy.1 hxy.2 hcell
    · show t.moveHistory.dropLast = s.moveHistory
      rw [hhist]
      exact List.dropLast_concat
  rw [hgo, hwin0]
  simp only [placeStone, hgo, if_false, Bool.false_eq_true, hv, not_true, if_neg,
    ite_false, ite_true, not_false_eq_true]
  split
  · exact hkey _ rfl rfl
  · split
    · exact hkey _ rfl rfl
    · exact hkey _ rfl rfl

/-- Witness for C10 at a concrete input: place at (7, 7) on a fresh engine,
then undo. -/
theorem place_undo_roundtrip_witness :
    isValidMove (reset 15) 7 7 = true ∧
    (undoMove (placeStone false (reset 15) 7 7).2).2.board = (reset 15).board :=
  ⟨by decide,
   (place_undo_roundtrip false (reset 15) 7 7 (Reachable.init 15 (by norm_num))
     (by decide) (by decide)).2.1⟩

end GE

namespace AI

/-- C8: `setDifficulty` silently ignores any string outside the four
recognized levels, and `getMove` with an unrecognized stored difficulty
behaves exactly as the Medium policy. -/
theorem setDifficulty_getMove_unrecognized :
    (∀ (ai : GomokuAI) (level : String),
      level ∉ (["easy", "medium", "hard", "master"] : List String) →
      setDifficulty ai level = ai) ∧
    (∀ (env : Env) (d : String) (b : Board) (p : Nat),
      d ∉ (["easy", "medium", "hard", "master"] : List String) →
      getMove env ⟨d⟩ b p = getMove env ⟨"medium"⟩ b p) := by
  constructor
  · intro ai level hmem
    simp only [setDifficulty]
    rw [if_neg]
    intro hc
    exact hmem (List.elem_iff.mp hc)
  · intro env d b p hmem
    have h1 : d ≠ "easy" := fun h => hmem (by simp [h])
    have h2 : d ≠ "medium" := fun h => hmem (by simp [h])
    have h3 : d ≠ "hard" := fun h => hmem (by simp [h])
    have h4 : d ≠ "master" := fun h => hmem (by simp [h])
    by_cases hb : b.length = 0
    · simp [getMove, hb]
    · simp [getMove, hb, h1, h2, h3, h4]

/-- Witness for C8 at a concrete input: the unrecognized level "expert". -/
theorem setDifficulty_getMove_unrecognized_witness :
    setDifficulty ⟨"easy"⟩ "expert" = ⟨"easy"⟩ ∧
    getMove envZero ⟨"expert"⟩ [] 1 = getMove envZero ⟨"medium"⟩ [] 1 :=
  ⟨setDifficulty_getMove_unrecognized.1 ⟨"easy"⟩ "expert" (by decide),
   setDifficulty_getMove_unrecognized.2 envZero "expert" [] 1 (by decide)⟩

end AI

namespace AI

theorem scoreMoveQuick_eq_tables (b : Board) (x y : Int) (player : Nat) :
    scoreMoveQuick b x y player =
      (DIRECTIONS.foldl (fun acc d =>
        acc + quickWeight (axisTotals b x y d.1 d.2 player).1 (axisTotals b x y d.1 d.2 player).2
            + quickDefWeight (axisTotals b x y d.1 d.2 (opponent player)).1
                (axisTotals b x y d.1 d.2 (opponent player)).2 * (9 / 10)) 0)
      + max 0 (7 - centerDist x y) := by
  simp only [scoreMoveQuick]
  refine congrArg (fun z => z + max 0 (7 - centerDist x y)) (List.foldl_ext _ _ 0 ?_)
  intro acc d _
  show acc +
      (if (axisTotals b x y d.1 d.2 player).1 ≥ 5 then SCORES.FIVE
       else if (axisTotals b x y d.1 d.2 player).1 = 4 then
         (if (axisTotals b x y d.1 d.2 player).2 = 2 then SCORES.OPEN_FOUR
          else if (axisTotals b x y d.1 d.2 player).2 = 1 then SCORES.HALF_OPEN_FOUR else 0)
       else if (axisTotals b x y d.1 d.2 player).1 = 3 then
         (if (axisTotals b x y d.1 d.2 player).2 = 2 then SCORES.OPEN_THREE
          else if (axisTotals b x y d.1 d.2 player).2 = 1 then SCORES.HALF_OPEN_THREE else 0)
       else if (axisTotals b x y d.1 d.2 player).1 = 2 then
         (if (axisTotals b x y d.1 d.2 player).2 = 2 then SCORES.OPEN_TWO
          else if (axisTotals b x y d.1 d.2 player).2 = 1 then SCORES.HALF_OPEN_TWO else 0)
       else 0) +
      (if (axisTotals b x y d.1 d.2 (opponent player)).1 ≥ 5 then SCORES.FIVE * (9 / 10)
       else if (axisTotals b x y d.1 d.2 (opponent player)).1 = 4 then
         (if (axisTotals b x y d.1 d.2 (opponent player)).2 ≥ 1 then SCORES.HALF_OPEN_FOUR
          else 0) * (9 / 10)
       else if (axisTotals b x y d.1 d.2 (opponent player)).1 = 3 then
         (if (axisTotals b x y d.1 d.2 (opponent player)).2 = 2 then SCORES.OPEN_THREE
          else if (axisTotals b x y d.1 d.2 (opponent player)).2 = 1 then SCORES.HALF_OPEN_THREE
          else 0) * (9 / 10)
       else 0) =
    acc + quickWeight (axisTotals b x y d.1 d.2 player).1 (axisTotals b x y d.1 d.2 player).2
        + quickDefWeight (axisTotals b x y d.1 d.2 (opponent player)).1
            (axisTotals b x y d.1 d.2 (opponent player)).2 * (9 / 10)
  have hq : ∀ (t o : Nat),
      (if t ≥ 5 then SCORES.FIVE * (9 / 10)
       else if t = 4 then (if o ≥ 1 then SCORES.HALF_OPEN_FOUR else 0) * (9 / 10)
       else if t = 3 then
         (if o = 2 then SCORES.OPEN_THREE else if o = 1 then SCORES.HALF_OPEN_THREE else 0) *
           (9 / 10)
       else 0) = quickDefWeight t o * (9 / 10) := by
    intro t o
    unfold quickDefWeight
    split_ifs <;> ring
  rw [hq]
  rfl

end AI

namespace AI

/-- C5 counterexample: for the empty cell (7,4) against a white open three at
(7,5)–(7,7) (an opponent run of total length 4 through the cell with both
ends open), the code's `scoreMoveQuick` differs from the spec's claimed
scorer, which awards 0.9 × the open-four weight where the code awards
0.9 × the half-open-four weight (and the code ignores opponent twos). -/
theorem scoreMoveQuick_ne_claimed :
    scoreMoveQuick bOpp3 7 4 1 ≠ scoreMoveQuickClaimed bOpp3 7 4 1 := by
  have e1 : axisTotals bOpp3 7 4 0 1 1 = (1, 1) := by decide
  have e2 : axisTotals bOpp3 7 4 1 0 1 = (1, 2) := by decide
  have e3 : axisTotals bOpp3 7 4 1 1 1 = (1, 2) := by decide
  have e4 : axisTotals bOpp3 7 4 1 (-1) 1 = (1, 2) := by decide
  have f1 : axisTotals bOpp3 7 4 0 1 (opponent 1) = (4, 2) := by decide
  have f2 : axisTotals bOpp3 7 4 1 0 (opponent 1) = (1, 2) := by decide
  have f3 : axisTotals bOpp3 7 4 1 1 (opponent 1) = (1, 2) := by decide
  have f4 : axisTotals bOpp3 7 4 1 (-1) (opponent 1) = (1, 2) := by decide
  rw [scoreMoveQuick_eq_tables]
  simp only [scoreMoveQuickClaimed, DIRECTIONS, List.foldl_cons, List.foldl_nil,
    e1, e2, e3, e4, f1, f2, f3, f4]
  norm_num [quickWeight, quickDefWeight, SCORES.FIVE, SCORES.OPEN_FOUR,
    SCORES.HALF_OPEN_FOUR, SCORES.OPEN_THREE, SCORES.HALF_OPEN_THREE,
    SCORES.OPEN_TWO, SCORES.HALF_OPEN_TWO]

/-- C5 (amended): on each axis, `scoreMoveQuick`'s defensive term is 0.9
times a defensive pattern table that maps opponent length ≥ 5 to the five
weight, length 4 with at least one open end to the half-open-four weight
(even with both ends open), length 3 to the open/half-open three weight by
open-end count, and opponent runs of length ≤ 2 to nothing — not 0.9 times
the offensive table. -/
theorem scoreMoveQuick_defensive_table (b : Board) (x y : Int) (player : Nat) :
    scoreMoveQuick b x y player =
      (DIRECTIONS.foldl (fun acc d =>
        acc + quickWeight (axisTotals b x y d.1 d.2 player).1 (axisTotals b x y d.1 d.2 player).2
            + quickDefWeight (axisTotals b x y d.1 d.2 (opponent player)).1
                (axisTotals b x y d.1 d.2 (opponent player)).2 * (9 / 10)) 0)
      + max 0 (7 - centerDist x y) :=
  scoreMoveQuick_eq_tables b x y player

end AI

namespace AI

theorem mem_idxs {i : Int} : i ∈ idxs ↔ 0 ≤ i ∧ i < 15 := by
  constructor
  · intro h
    obtain ⟨n, hn, rfl⟩ := List.mem_map.mp h
    have := List.mem_range.mp hn
    omega
  · intro h
    refine List.mem_map.mpr ⟨i.toNat, List.mem_range.mpr ?_, ?_⟩ <;> omega

theorem mem_cellIdxs {c : Int × Int} : c ∈ cellIdxs ↔ inBounds c.1 c.2 = true := by
  obtain ⟨i, j⟩ := c
  constructor
  · intro h
    obtain ⟨a, ha, hb⟩ := List.mem_flatMap.mp h
    obtain ⟨b0, hb0, heq⟩ := List.mem_map.mp hb
    obtain ⟨rfl, rfl⟩ : a = i ∧ b0 = j := by
      cases heq
      exact ⟨rfl, rfl⟩
    have h1 := mem_idxs.mp ha
    have h2 := mem_idxs.mp hb0
    simp only [inBounds, Bool.and_eq_true, decide_eq_true_eq]
    omega
  · intro h
    simp only [inBounds, Bool.and_eq_true, decide_eq_true_eq] at h
    exact List.mem_flatMap.mpr ⟨i, mem_idxs.mpr (by omega),
      List.mem_map.mpr ⟨j, mem_idxs.mpr (by omega), rfl⟩⟩

theorem takeWhile_length_le {α : Type} (q : α → Bool) (l : List α) :
    (l.takeWhile q).length ≤ l.length :=
  (List.takeWhile_prefix q).length_le

theorem takeWhile_length_eq_iff {α : Type} (q : α → Bool) (l : List α) :
    (l.takeWhile q).length = l.length ↔ ∀ x ∈ l, q x = true := by
  constructor
  · intro h x hx
    exact List.mem_takeWhile_imp (((List.takeWhile_prefix q).eq_of_length h) ▸ hx)
  · intro h
    rw [List.takeWhile_eq_self_iff.mpr h]

theorem fwdCount_le (b : Board) (x y dx dy : Int) (p : Nat) :
    fwdCount b x y dx dy p ≤ 4 := by
  have h := takeWhile_length_le (fun k : Nat =>
    inBounds (x + dx * (k : Int)) (y + dy * (k : Int)) &&
    (getCell b (x + dx * (k : Int)) (y + dy * (k : Int)) == p))
    (List.range' 1 4)
  simpa [fwdCount] using h

theorem takeWhile_range4_eq_iff (q : Nat → Bool) :
    ((List.range' 1 4).takeWhile q).length = 4 ↔ ∀ k, 1 ≤ k → k < 5 → q k = true := by
  constructor
  · intro h k h1 h5
    have heq : (List.range' 1 4).takeWhile q = List.range' 1 4 :=
      (List.takeWhile_prefix q).eq_of_length (by simpa using h)
    exact List.mem_takeWhile_imp (heq ▸ List.mem_range'_1.mpr ⟨h1, by omega⟩)
  · intro h
    have heq : (List.range' 1 4).takeWhile q = List.range' 1 4 :=
      List.takeWhile_eq_self_iff.mpr (fun k hk => by
        have hm := List.mem_range'_1.mp hk
        exact h k hm.1 (by omega))
    simp [heq]

theorem fwdCount_eq_four_iff (b : Board) (x y dx dy : Int) (p : Nat) :
    fwdCount b x y dx dy p = 4 ↔
      ∀ k : Nat, 1 ≤ k → k < 5 →
        (inBounds (x + dx * k) (y + dy * k) && (getCell b (x + dx * k) (y + dy * k) == p)) = true := by
  unfold fwdCount
  exact takeWhile_range4_eq_iff (fun k : Nat =>
    inBounds (x + dx * (k : Int)) (y + dy * (k : Int)) &&
    (getCell b (x + dx * (k : Int)) (y + dy * (k : Int)) == p))

theorem checkWin_iff_hasRunOfFive (b : Board) (p : Nat) :
    checkWin b p = true ↔ hasRunOfFive b p = true := by
  unfold checkWin hasRunOfFive runAt
  simp only [List.any_eq_true, Bool.and_eq_true, beq_iff_eq, decide_eq_true_eq,
    List.all_eq_true, List.mem_range]
  constructor
  · rintro ⟨c, hc, hcp, d, hd, hge⟩
    refine ⟨d, hd, c, hc, ?_⟩
    intro k hk
    have h4 : fwdCount b c.1 c.2 d.1 d.2 p = 4 := by
      have := fwdCount_le b c.1 c.2 d.1 d.2 p
      omega
    rcases Nat.eq_zero_or_pos k with rfl | hkpos
    · refine ⟨?_, ?_⟩
      · simpa using mem_cellIdxs.mp hc
      · simpa using hcp
    · have := (fwdCount_eq_four_iff b c.1 c.2 d.1 d.2 p).mp h4 k hkpos hk
      simp only [Bool.and_eq_true, beq_iff_eq] at this
      exact this
  · rintro ⟨d, hd, c, hc, hall⟩
    have h0 := hall 0 (by omega)
    refine ⟨c, hc, by simpa using h0.2, d, hd, ?_⟩
    have h4 : fwdCount b c.1 c.2 d.1 d.2 p = 4 := by
      rw [fwdCount_eq_four_iff]
      intro k h1 h5
      have := hall k h5
      simp only [Bool.and_eq_true, beq_iff_eq]
      exact this
    omega

end AI

namespace GE

theorem checkWinLoop_isSome_iff (f : Bool) (s : EngineState) (x y : Int) (p : Nat)
    (ds : List (Int × Int)) :
    (checkWinLoop f s x y p ds).isSome = true ↔
      ∃ d ∈ ds, (if f then 5 ≤ (collectLine s x y d.1 d.2 p).length
                 else (collectLine s x y d.1 d.2 p).length = 5) := by
  induction ds with
  | nil => simp [checkWinLoop]
  | cons d rest ih =>
    cases f with
    | false =>
      by_cases h5 : (collectLine s x y d.1 d.2 p).length = 5
      · simp [checkWinLoop, h5]
      · simp only [checkWinLoop, Bool.false_eq_true, if_false, h5, ite_false]
        rw [ih]
        simp [h5]
    | true =>
      by_cases h5 : 5 ≤ (collectLine s x y d.1 d.2 p).length
      · simp [checkWinLoop, h5]
      · simp only [checkWinLoop, if_true, h5, ite_false]
        rw [ih]
        simp [h5]

end GE

namespace AI

/-- C1 counterexample: on a board holding six black stones in a row (an
overline) and nothing else, the AI engine's Terminal Detector `checkWin`
reports a win for black although black has no maximal run of exactly five —
contradicting the claim that, with the overline flag disabled (the AI engine
has no such flag), a run of six is not reported as a win. -/
theorem checkWin_overline_counterexample :
    checkWin bSix BLACK = true ∧ hasMaxRunExactlyFive bSix BLACK = false := by
  constructor
  · set_option maxRecDepth 40000 in decide
  · set_option maxRecDepth 40000 in decide

/-- C1 (amended): the AI engine's `checkWin` reports a win exactly when the
player has a contiguous run of five **or more** on some axis — overlines win
and the AI engine has no overline flag.  The exactly-five rule with the
`ALLOW_OVERLINE` relaxation belongs to `GameEngine.checkWin` in `game.js`:
with the flag off, the maximal line through the placed cell wins exactly when
its length is exactly 5, and with the flag on exactly when its length is at
least 5. -/
theorem checkWin_exactness :
    (∀ (b : Board) (p : Nat), checkWin b p = true ↔ hasRunOfFive b p = true) ∧
    (∀ (f : Bool) (s : GE.EngineState) (x y : Int) (p : Nat),
      (GE.checkWinG f s x y p).isSome = true ↔
        ∃ d ∈ GE.DIRECTIONS,
          (if f then 5 ≤ (GE.collectLine s x y d.1 d.2 p).length
           else (GE.collectLine s x y d.1 d.2 p).length = 5)) :=
  ⟨checkWin_iff_hasRunOfFive,
   fun f s x y p => GE.checkWinLoop_isSome_iff f s x y p GE.DIRECTIONS⟩

end AI

namespace AI

theorem WF_split {b : Board} (hwf : WF b = true) :
    b.length = 15 ∧ ∀ row ∈ b, row.length = 15 := by
  simp only [WF, Bool.and_eq_true, beq_iff_eq, List.all_eq_true] at hwf
  exact ⟨hwf.1, fun row hr => by simpa using hwf.2 row hr⟩

theorem inBounds_toNat {x y : Int} (h : inBounds x y = true) :
    x.toNat < 15 ∧ y.toNat < 15 ∧ 0 ≤ x ∧ 0 ≤ y := by
  simp only [inBounds, Bool.and_eq_true, decide_eq_true_eq] at h
  omega

theorem setCell_WF {b : Board} (x y : Int) (v : Nat) (hwf : WF b = true) :
    WF (setCell b x y v) = true := by
  obtain ⟨hlen, hrows⟩ := WF_split hwf
  by_cases hin : inBounds x y = true
  · obtain ⟨hx, hy, _, _⟩ := inBounds_toNat hin
    simp only [setCell, hin, ite_true, WF, Bool.and_eq_true, beq_iff_eq, List.all_eq_true]
    refine ⟨by simpa using hlen, ?_⟩
    intro row hrow
    rcases List.mem_or_eq_of_mem_set hrow with h | h
    · simpa using hrows row h
    · subst h
      rw [List.length_set]
      simpa using hrows _ (list_getD_mem b x.toNat [] (by omega))
  · simpa [setCell, hin] using hwf

theorem setCell_cancel {b : Board} (x y : Int) (v : Nat) (hwf : WF b = true) :
    setCell (setCell b x y v) x y (getCell b x y) = b := by
  obtain ⟨hlen, hrows⟩ := WF_split hwf
  by_cases hin : inBounds x y = true
  · obtain ⟨hx, hy, _, _⟩ := inBounds_toNat hin
    have hrowlen : (b.getD x.toNat []).length = 15 :=
      hrows _ (list_getD_mem b x.toNat [] (by omega))
    have hget : ∀ (l : List (List Nat)) (i : Nat) (a d : List Nat),
        i < l.length → (l.set i a).getD i d = a := by
      intro l i a d h
      rw [List.getD_eq_getElem?_getD]
      simp [List.getElem?_set_self, h]
    simp only [setCell, getCell, hin, ite_true]
    rw [hget _ _ _ _ (by omega), List.set_set, List.set_set,
      list_set_getD_self _ _ _ (by omega), list_set_getD_self _ _ _ (by omega)]
  · simp [setCell, hin]

theorem setCell_unmake {b : Board} (x y : Int) (v : Nat) (hwf : WF b = true)
    (h0 : getCell b x y = EMPTY) : setCell (setCell b x y v) x y EMPTY = b := by
  rw [← h0]
  exact setCell_cancel x y v hwf

theorem getCell_setCell_other {b : Board} {x y a c : Int} (v : Nat) (hwf : WF b = true)
    (hne : (a, c) ≠ (x, y)) : getCell (setCell b x y v) a c = getCell b a c := by
  by_cases hin : inBounds x y = true
  · by_cases hac : inBounds a c = true
    · obtain ⟨hx, hy, hx0, hy0⟩ := inBounds_toNat hin
      obtain ⟨ha, hc, ha0, hc0⟩ := inBounds_toNat hac
      obtain ⟨hlen, _⟩ := WF_split hwf
      simp only [setCell, getCell, hin, hac, ite_true]
      by_cases hrow : a.toNat = x.toNat
      · have hcy : y.toNat ≠ c.toNat := by
          intro hcc
          apply hne
          have h1 : a = x := by omega
          have h2 : c = y := by omega
          rw [h1, h2]
        have houter : (List.set b x.toNat ((b.getD x.toNat []).set y.toNat v)).getD a.toNat []
            = (b.getD x.toNat []).set y.toNat v := by
          rw [hrow, List.getD_eq_getElem?_getD, List.getElem?_set_self (by omega),
            Option.getD_some]
        rw [houter]
        have hinner : ((b.getD x.toNat []).set y.toNat v).getD c.toNat 0
            = (b.getD x.toNat []).getD c.toNat 0 := by
          rw [List.getD_eq_getElem?_getD, List.getElem?_set_ne hcy,
            ← List.getD_eq_getElem?_getD]
        rw [hinner, ← hrow]
      · have hxa : x.toNat ≠ a.toNat := fun h => hrow h.symm
        have houter : (List.set b x.toNat ((b.getD x.toNat []).set y.toNat v)).getD a.toNat []
            = b.getD a.toNat [] := by
          rw [List.getD_eq_getElem?_getD, List.getElem?_set_ne hxa,
            ← List.getD_eq_getElem?_getD]
        rw [houter]
    · simp [getCell, hac]
  · simp [setCell, hin]

end AI

namespace AI

theorem mem_offs {r z : Int} (hr : 0 ≤ r) : z ∈ offs r ↔ -r ≤ z ∧ z ≤ r := by
  constructor
  · intro h
    obtain ⟨n, hn, rfl⟩ := List.mem_map.mp h
    have := List.mem_range.mp hn
    omega
  · intro h
    refine List.mem_map.mpr ⟨(z + r).toNat, List.mem_range.mpr ?_, ?_⟩ <;> omega

theorem mem_offPairs {r : Int} {d : Int × Int} (hr : 0 ≤ r) :
    d ∈ offPairs r ↔ -r ≤ d.1 ∧ d.1 ≤ r ∧ -r ≤ d.2 ∧ d.2 ≤ r := by
  obtain ⟨di, dj⟩ := d
  constructor
  · intro h
    obtain ⟨a, ha, hb⟩ := List.mem_flatMap.mp h
    obtain ⟨b0, hb0, heq⟩ := List.mem_map.mp hb
    obtain ⟨rfl, rfl⟩ : a = di ∧ b0 = dj := by
      cases heq
      exact ⟨rfl, rfl⟩
    have h1 := (mem_offs hr).mp ha
    have h2 := (mem_offs hr).mp hb0
    exact ⟨h1.1, h1.2, h2.1, h2.2⟩
  · intro h
    exact List.mem_flatMap.mpr ⟨di, (mem_offs hr).mpr ⟨h.1, h.2.1⟩,
      List.mem_map.mpr ⟨dj, (mem_offs hr).mpr ⟨h.2.2.1, h.2.2.2⟩, rfl⟩⟩

theorem key_inj {a c ni nj : Int} (h1 : inBounds a c = true) (h2 : inBounds ni nj = true)
    (h : a * 15 + c = ni * 15 + nj) : a = ni ∧ c = nj := by
  simp only [inBounds, Bool.and_eq_true, decide_eq_true_eq] at h1 h2
  constructor <;> omega

theorem genProbe_hasStone (b : Board) (i j : Int) (st : GenSt) (d : Int × Int) :
    (genProbe b i j st d).hasStone = st.hasStone := by
  simp only [genProbe]
  split
  · split <;> rfl
  · rfl

theorem genProbe_cands_mono (b : Board) (i j : Int) (st : GenSt) (d : Int × Int)
    (m : Move) (hm : m ∈ st.cands) : m ∈ (genProbe b i j st d).cands := by
  simp only [genProbe]
  split
  · split
    · exact hm
    · simp only [List.mem_append]
      exact Or.inl hm
  · exact hm

theorem genProbe_sound (b : Board) (i j : Int) (st : GenSt) (d : Int × Int)
    (h : ∀ m ∈ st.cands, inBounds m.1 m.2 = true ∧ getCell b m.1 m.2 = EMPTY) :
    ∀ m ∈ (genProbe b i j st d).cands,
      inBounds m.1 m.2 = true ∧ getCell b m.1 m.2 = EMPTY := by
  simp only [genProbe]
  split
  · rename_i hguard
    split
    · exact h
    · intro m hm
      rcases List.mem_append.mp hm with hm | hm
      · exact h m hm
      · have hmeq : m = (i + d.1, j + d.2) := by simpa using hm
        subst hmeq
        simp only [Bool.and_eq_true, beq_iff_eq] at hguard
        exact hguard
  · exact h

theorem genProbe_inv (b : Board) (i j : Int) (st : GenSt) (d : Int × Int)
    (hinv : ∀ a c : Int, inBounds a c = true →
      st.visited.contains (a * 15 + c) = true → (a, c) ∈ st.cands) :
    ∀ a c : Int, inBounds a c = true →
      (genProbe b i j st d).visited.contains (a * 15 + c) = true →
      (a, c) ∈ (genProbe b i j st d).cands := by
  simp only [genProbe]
  split
  · rename_i hguard
    split
    · exact hinv
    · intro a c hac hcont
      simp only [List.contains_cons, Bool.or_eq_true, beq_iff_eq] at hcont
      simp only [Bool.and_eq_true, beq_iff_eq] at hguard
      rcases hcont with hkey | hold
      · obtain ⟨rfl, rfl⟩ := key_inj hac hguard.1 hkey
        simp
      · simp only [List.mem_append]
        exact Or.inl (hinv a c hac hold)
  · exact hinv

theorem probeFold_hasStone (b : Board) (i j : Int) (l : List (Int × Int)) (st : GenSt) :
    (l.foldl (genProbe b i j) st).hasStone = st.hasStone := by
  induction l generalizing st with
  | nil => rfl
  | cons d t ih => rw [List.foldl_cons, ih, genProbe_hasStone]

theorem probeFold_cands_mono (b : Board) (i j : Int) (l : List (Int × Int)) (st : GenSt)
    (m : Move) (hm : m ∈ st.cands) : m ∈ (l.foldl (genProbe b i j) st).cands := by
  induction l generalizing st with
  | nil => exact hm
  | cons d t ih => exact ih _ (genProbe_cands_mono b i j st d m hm)

theorem probeFold_sound (b : Board) (i j : Int) (l : List (Int × Int)) (st : GenSt)
    (h : ∀ m ∈ st.cands, inBounds m.1 m.2 = true ∧ getCell b m.1 m.2 = EMPTY) :
    ∀ m ∈ (l.foldl (genProbe b i j) st).cands,
      inBounds m.1 m.2 = true ∧ getCell b m.1 m.2 = EMPTY := by
  induction l generalizing st with
  | nil => exact h
  | cons d t ih => exact ih _ (genProbe_sound b i j st d h)

theorem probeFold_inv (b : Board) (i j : Int) (l : List (Int × Int)) (st : GenSt)
    (hinv : ∀ a c : Int, inBounds a c = true →
      st.visited.contains (a * 15 + c) = true → (a, c) ∈ st.cands) :
    ∀ a c : Int, inBounds a c = true →
      (l.foldl (genProbe b i j) st).visited.contains (a * 15 + c) = true →
      (a, c) ∈ (l.foldl (genProbe b i j) st).cands := by
  induction l generalizing st with
  | nil => exact hinv
  | cons d t ih => exact ih _ (genProbe_inv b i j st d hinv)

theorem genVisit_hasStone_of_stone (b : Board) (r : Int) (st : GenSt) (i j : Int)
    (hstone : getCell b i j ≠ EMPTY) : (genVisit b r st i j).hasStone = true := by
  unfold genVisit
  rw [if_pos hstone, probeFold_hasStone]

theorem genVisit_hasStone_mono (b : Board) (r : Int) (st : GenSt) (i j : Int)
    (h : st.hasStone = true) : (genVisit b r st i j).hasStone = true := by
  unfold genVisit
  split
  · rw [probeFold_hasStone]
  · exact h

theorem genVisit_cands_mono (b : Board) (r : Int) (st : GenSt) (i j : Int)
    (m : Move) (hm : m ∈ st.cands) : m ∈ (genVisit b r st i j).cands := by
  unfold genVisit
  split
  · exact probeFold_cands_mono b i j (offPairs r) _ m hm
  · exact hm

theorem genVisit_sound (b : Board) (r : Int) (st : GenSt) (i j : Int)
    (h : ∀ m ∈ st.cands, inBounds m.1 m.2 = true ∧ getCell b m.1 m.2 = EMPTY) :
    ∀ m ∈ (genVisit b r st i j).cands,
      inBounds m.1 m.2 = true ∧ getCell b m.1 m.2 = EMPTY := by
  unfold genVisit
  split
  · exact probeFold_sound b i j (offPairs r) _ h
  · exact h

theorem genVisit_inv (b : Board) (r : Int) (st : GenSt) (i j : Int)
    (hinv : ∀ a c : Int, inBounds a c = true →
      st.visited.contains (a * 15 + c) = true → (a, c) ∈ st.cands) :
    ∀ a c : Int, inBounds a c = true →
      (genVisit b r st i j).visited.contains (a * 15 + c) = true →
      (a, c) ∈ (genVisit b r st i j).cands := by
  unfold genVisit
  split
  · exact probeFold_inv b i j (offPairs r) _ hinv
  · exact hinv

theorem visitFold_sound (b : Board) (r : Int) (l : List (Int × Int)) (st : GenSt)
    (h : ∀ m ∈ st.cands, inBounds m.1 m.2 = true ∧ getCell b m.1 m.2 = EMPTY) :
    ∀ m ∈ (l.foldl (fun st c => genVisit b r st c.1 c.2) st).cands,
      inBounds m.1 m.2 = true ∧ getCell b m.1 m.2 = EMPTY := by
  induction l generalizing st with
  | nil => exact h
  | cons c t ih => exact ih _ (genVisit_sound b r st c.1 c.2 h)

theorem visitFold_hasStone_mono (b : Board) (r : Int) (l : List (Int × Int)) (st : GenSt)
    (h : st.hasStone = true) :
    (l.foldl (fun st c => genVisit b r st c.1 c.2) st).hasStone = true := by
  induction l generalizing st with
  | nil => exact h
  | cons c t ih => exact ih _ (genVisit_hasStone_mono b r st c.1 c.2 h)

theorem visitFold_cands_mono (b : Board) (r : Int) (l : List (Int × Int)) (st : GenSt)
    (m : Move) (hm : m ∈ st.cands) :
    m ∈ (l.foldl (fun st c => genVisit b r st c.1 c.2) st).cands := by
  induction l generalizing st with
  | nil => exact hm
  | cons c t ih => exact ih _ (genVisit_cands_mono b r st c.1 c.2 m hm)

theorem visitFold_inv (b : Board) (r : Int) (l : List (Int × Int)) (st : GenSt)
    (hinv : ∀ a c : Int, inBounds a c = true →
      st.visited.contains (a * 15 + c) = true → (a, c) ∈ st.cands) :
    ∀ a c : Int, inBounds a c = true →
      (l.foldl (fun st c => genVisit b r st c.1 c.2) st).visited.contains (a * 15 + c) = true →
      (a, c) ∈ (l.foldl (fun st c => genVisit b r st c.1 c.2) st).cands := by
  induction l generalizing st with
  | nil => exact hinv
  | cons c t ih => exact ih _ (genVisit_inv b r st c.1 c.2 hinv)

theorem generateCandidates_sound (b : Board) (r : Int) :
    ∀ m ∈ generateCandidates b r, inBounds m.1 m.2 = true ∧ getCell b m.1 m.2 = EMPTY := by
  simp only [generateCandidates]
  by_cases hst : (cellIdxs.foldl (fun st c => genVisit b r st c.1 c.2)
      (⟨[], [], false⟩ : GenSt)).hasStone = true
  · rw [if_pos hst]
    exact visitFold_sound b r cellIdxs ⟨[], [], false⟩ (by simp)
  · rw [if_neg hst]
    intro m hm
    have hmc : m = ((CENTER : Int), (CENTER : Int)) := by simpa using hm
    subst hmc
    have hempty : ∀ c ∈ cellIdxs, getCell b c.1 c.2 = EMPTY := by
      intro c hc
      by_contra hstone
      obtain ⟨l1, l2, hsplit⟩ := List.append_of_mem hc
      apply hst
      rw [hsplit, List.foldl_append, List.foldl_cons]
      exact visitFold_hasStone_mono b r l2 _
        (genVisit_hasStone_of_stone b r _ c.1 c.2 hstone)
    refine ⟨by decide, ?_⟩
    exact hempty ((CENTER : Int), (CENTER : Int)) (mem_cellIdxs.mpr (by decide))

theorem generateCandidates_complete (b : Board) (r : Int) (hr : 0 ≤ r) (m : Move)
    (hin : inBounds m.1 m.2 = true) (hempty : getCell b m.1 m.2 = EMPTY)
    (i j : Int) (hsin : inBounds i j = true) (hstone : getCell b i j ≠ EMPTY)
    (hn1 : -r ≤ m.1 - i) (hn2 : m.1 - i ≤ r) (hn3 : -r ≤ m.2 - j) (hn4 : m.2 - j ≤ r) :
    m ∈ generateCandidates b r := by
  have hadds : ∀ st : GenSt,
      (∀ a c : Int, inBounds a c = true →
        st.visited.contains (a * 15 + c) = true → (a, c) ∈ st.cands) →
      m ∈ (genVisit b r st i j).cands := by
    intro st hinv
    unfold genVisit
    rw [if_pos hstone]
    have hd : ((m.1 - i, m.2 - j) : Int × Int) ∈ offPairs r :=
      (mem_offPairs hr).mpr ⟨hn1, hn2, hn3, hn4⟩
    obtain ⟨l1, l2, hsplit⟩ := List.append_of_mem hd
    rw [hsplit, List.foldl_append, List.foldl_cons]
    have hmid_inv := probeFold_inv b i j l1 { st with hasStone := true } hinv
    have hstep : m ∈ (genProbe b i j
        (l1.foldl (genProbe b i j) { st with hasStone := true }) (m.1 - i, m.2 - j)).cands := by
      simp only [genProbe]
      have hco : i + (m.1 - i) = m.1 := by ring
      have hco2 : j + (m.2 - j) = m.2 := by ring
      simp only [hco, hco2]
      rw [if_pos (by simp [hin, hempty])]
      split
      · rename_i hcont
        have := hmid_inv m.1 m.2 hin hcont
        simpa using this
      · simp
    exact probeFold_cands_mono b i j l2 _ m hstep
  have hcmem : ((i, j) : Int × Int) ∈ cellIdxs := mem_cellIdxs.mpr hsin
  obtain ⟨l1, l2, hsplit⟩ := List.append_of_mem hcmem
  have hprefix_inv := visitFold_inv b r l1 ⟨[], [], false⟩
    (by intro a c _ hc; simp [List.contains] at hc)
  have hfinal1 : m ∈ (cellIdxs.foldl (fun st c => genVisit b r st c.1 c.2)
      (⟨[], [], false⟩ : GenSt)).cands := by
    rw [hsplit, List.foldl_append, List.foldl_cons]
    exact visitFold_cands_mono b r l2 _ m (hadds _ hprefix_inv)
  have hfinal2 : (cellIdxs.foldl (fun st c => genVisit b r st c.1 c.2)
      (⟨[], [], false⟩ : GenSt)).hasStone = true := by
    rw [hsplit, List.foldl_append, List.foldl_cons]
    exact visitFold_hasStone_mono b r l2 _
      (genVisit_hasStone_of_stone b r _ i j hstone)
  simp only [generateCandidates]
  rw [if_pos hfinal2]
  exact hfinal1

end AI

namespace AI

theorem getOrderedMoves_sound {b : Board} {p : Nat} {r : Int} {sm : ScoredMove}
    (h : sm ∈ getOrderedMoves b p r) :
    inBounds sm.x sm.y = true ∧ getCell b sm.x sm.y = EMPTY := by
  simp only [getOrderedMoves, List.mem_mergeSort] at h
  obtain ⟨m, hm, rfl⟩ := List.mem_map.mp h
  exact generateCandidates_sound b r m hm

theorem abLoopMax_spec (f : SState → Board → ℚ → ℚ → ℚ × SState × Board) (curP : Nat)
    (hf : ∀ (s' : SState) (b' : Board) (a' b'' : ℚ), WF b' = true → (f s' b' a' b'').2.2 = b')
    (l : List ScoredMove) (s : SState) (b : Board) (alpha beta value : ℚ)
    (hwf : WF b = true)
    (hl : ∀ sm ∈ l, inBounds sm.x sm.y = true ∧ getCell b sm.x sm.y = EMPTY) :
    (abLoopMax f curP l s b alpha beta value).2.2 = b := by
  induction l generalizing s alpha beta value with
  | nil => rfl
  | cons m t ih =>
    simp only [abLoopMax]
    rcases hcall : f s (setCell b m.x m.y curP) alpha beta with ⟨score, s1, b2⟩
    have hb2 : b2 = setCell b m.x m.y curP := by
      have hh := hf s (setCell b m.x m.y curP) alpha beta (setCell_WF m.x m.y curP hwf)
      rw [hcall] at hh
      exact hh
    have hrestore : setCell b2 m.x m.y EMPTY = b := by
      rw [hb2]
      exact setCell_unmake m.x m.y curP hwf (hl m (List.mem_cons_self m t)).2
    split
    · simp [hrestore]
    · split
      · simp [hrestore]
      · rw [hrestore]
        exact ih s1 _ beta _ (fun sm hsm => hl sm (List.mem_cons_of_mem m hsm))

end AI

namespace AI

theorem abLoopMin_spec (f : SState → Board → ℚ → ℚ → ℚ × SState × Board) (curP : Nat)
    (hf : ∀ (s' : SState) (b' : Board) (a' b'' : ℚ), WF b' = true → (f s' b' a' b'').2.2 = b')
    (l : List ScoredMove) (s : SState) (b : Board) (alpha beta value : ℚ)
    (hwf : WF b = true)
    (hl : ∀ sm ∈ l, inBounds sm.x sm.y = true ∧ getCell b sm.x sm.y = EMPTY) :
    (abLoopMin f curP l s b alpha beta value).2.2 = b := by
  induction l generalizing s alpha beta value with
  | nil => rfl
  | cons m t ih =>
    simp only [abLoopMin]
    rcases hcall : f s (setCell b m.x m.y curP) alpha beta with ⟨score, s1, b2⟩
    have hb2 : b2 = setCell b m.x m.y curP := by
      have hh := hf s (setCell b m.x m.y curP) alpha beta (setCell_WF m.x m.y curP hwf)
      rw [hcall] at hh
      exact hh
    have hrestore : setCell b2 m.x m.y EMPTY = b := by
      rw [hb2]
      exact setCell_unmake m.x m.y curP hwf (hl m (List.mem_cons_self m t)).2
    split
    · simp [hrestore]
    · split
      · simp [hrestore]
      · rw [hrestore]
        exact ih s1 alpha _ _ (fun sm hsm => hl sm (List.mem_cons_of_mem m hsm))

theorem alphabeta_board (env : Env) : ∀ (depth : Nat) (s : SState) (b : Board)
    (alpha beta : ℚ) (mp cp : Nat) (im : Bool), WF b = true →
    (alphabeta env s b depth alpha beta mp cp im).2.2 = b := by
  intro depth
  induction depth with
  | zero =>
    intro s b alpha beta mp cp im hwf
    simp only [alphabeta]
    split
    · rfl
    · split
      · rfl
      · split
        · rfl
        · rfl
  | succ d ih =>
    intro s b alpha beta mp cp im hwf
    simp only [alphabeta]
    repeat' split
    all_goals try rfl
    all_goals first
      | exact abLoopMax_spec _ cp
          (fun s' b' a' b'' hwf' => ih s' b' a' b'' mp (opponent cp) false hwf')
          _ _ _ _ _ _ hwf
          (fun sm hsm => getOrderedMoves_sound (List.take_subset _ _ hsm))
      | exact abLoopMin_spec _ cp
          (fun s' b' a' b'' hwf' => ih s' b' a' b'' mp (opponent cp) true hwf')
          _ _ _ _ _ _ hwf
          (fun sm hsm => getOrderedMoves_sound (List.take_subset _ _ hsm))

end AI

namespace AI

theorem bool_eq_false_of_ne_true {c : Bool} (h : ¬ c = true) : c = false := by
  cases c
  · rfl
  · exact absurd rfl h

theorem probeScan_spec (p : Nat) (l : List ScoredMove) (b : Board) (hwf : WF b = true)
    (hl : ∀ sm ∈ l, inBounds sm.x sm.y = true ∧ getCell b sm.x sm.y = EMPTY) :
    (probeScan p l b).2 = b ∧
    (∀ mv, (probeScan p l b).1 = some mv →
      (∃ sm ∈ l, mv = ((sm.x, sm.y) : Move)) ∧ checkWin (setCell b mv.1 mv.2 p) p = true) ∧
    ((probeScan p l b).1 = none → ∀ sm ∈ l, checkWin (setCell b sm.x sm.y p) p = false) := by
  induction l with
  | nil =>
    refine ⟨rfl, ?_, ?_⟩
    · intro mv hmv
      simp [probeScan] at hmv
    · intro _ sm hsm
      simp at hsm
  | cons m t ih =>
    have hm := hl m (List.mem_cons_self m t)
    have hrestore : setCell (setCell b m.x m.y p) m.x m.y EMPTY = b :=
      setCell_unmake m.x m.y p hwf hm.2
    have htail : ∀ sm ∈ t, inBounds sm.x sm.y = true ∧ getCell b sm.x sm.y = EMPTY :=
      fun sm hsm => hl sm (List.mem_cons_of_mem m hsm)
    simp only [probeScan]
    split
    · rename_i hwin
      refine ⟨hrestore, ?_, ?_⟩
      · intro mv hmv
        have hmv' : mv = ((m.x, m.y) : Move) := by
          simpa using hmv.symm
        subst hmv'
        exact ⟨⟨m, List.mem_cons_self m t, rfl⟩, hwin⟩
      · intro hnone
        simp at hnone
    · rename_i hnw
      rw [hrestore]
      obtain ⟨ihb, ihsome, ihnone⟩ := ih htail
      refine ⟨ihb, ?_, ?_⟩
      · intro mv hmv
        obtain ⟨⟨sm, hsm, rfl⟩, hwin⟩ := ihsome mv hmv
        exact ⟨⟨sm, List.mem_cons_of_mem m hsm, rfl⟩, hwin⟩
      · intro hnone sm hsm
        rcases List.mem_cons.mp hsm with rfl | hsm
        · exact bool_eq_false_of_ne_true hnw
        · exact ihnone hnone sm hsm

theorem rootLoop_spec (env : Env) (player : Nat) (d : Nat) (l : List ScoredMove)
    (s : SState) (b : Board) (best0 : Move) (bs0 : ℚ) (hwf : WF b = true)
    (hl : ∀ sm ∈ l, inBounds sm.x sm.y = true ∧ getCell b sm.x sm.y = EMPTY) :
    (rootLoop env player d l s b best0 bs0).2.2.2 = b ∧
    ((rootLoop env player d l s b best0 bs0).1 = best0 ∨
      ∃ sm ∈ l, (rootLoop env player d l s b best0 bs0).1 = ((sm.x, sm.y) : Move)) := by
  induction l generalizing s best0 bs0 with
  | nil => exact ⟨rfl, Or.inl rfl⟩
  | cons m t ih =>
    have hm := hl m (List.mem_cons_self m t)
    have htail : ∀ sm ∈ t, inBounds sm.x sm.y = true ∧ getCell b sm.x sm.y = EMPTY :=
      fun sm hsm => hl sm (List.mem_cons_of_mem m hsm)
    simp only [rootLoop]
    rcases hcall : alphabeta env s (setCell b m.x m.y player) d (-INF) INF player
      (opponent player) false with ⟨score, s1, b2⟩
    have hb2 : b2 = setCell b m.x m.y player := by
      have hh := alphabeta_board env d s (setCell b m.x m.y player) (-INF) INF player
        (opponent player) false (setCell_WF m.x m.y player hwf)
      rw [hcall] at hh
      exact hh
    have hrestore : setCell b2 m.x m.y EMPTY = b := by
      rw [hb2]
      exact setCell_unmake m.x m.y player hwf hm.2
    split
    · exact ⟨by simp [hrestore], Or.inl rfl⟩
    · split
      · rw [hrestore]
        obtain ⟨ihb, ihmem⟩ := ih s1 (m.x, m.y) score htail
        refine ⟨ihb, Or.inr ?_⟩
        rcases ihmem with heq | ⟨sm, hsm, heq⟩
        · exact ⟨m, List.mem_cons_self m t, heq⟩
        · exact ⟨sm, List.mem_cons_of_mem m hsm, heq⟩
      · rw [hrestore]
        obtain ⟨ihb, ihmem⟩ := ih s1 best0 bs0 htail
        refine ⟨ihb, ?_⟩
        rcases ihmem with heq | ⟨sm, hsm, heq⟩
        · exact Or.inl heq
        · exact Or.inr ⟨sm, List.mem_cons_of_mem m hsm, heq⟩

theorem take_cons_head {m0 : ScoredMove} {rest : List ScoredMove} :
    ∃ t, (m0 :: rest).take (min (m0 :: rest).length 20) = m0 :: t ∧
      t ⊆ rest := by
  have h1 : min (m0 :: rest).length 20 = (min (m0 :: rest).length 20 - 1) + 1 := by
    simp only [List.length_cons]
    omega
  rw [h1, List.take_succ_cons]
  exact ⟨_, rfl, List.take_subset _ _⟩

theorem findBestMove_spec (env : Env) (s : SState) (b : Board) (player : Nat)
    (depth : Nat) (tl : Nat) (adv : Bool) (hwf : WF b = true) :
    (findBestMove env s b player depth tl adv).2.2 = b ∧
    ((getOrderedMoves b player 2 = [] ∧
        (findBestMove env s b player depth tl adv).1 = ((CENTER, CENTER) : Move)) ∨
      ∃ sm ∈ getOrderedMoves b player 2,
        (findBestMove env s b player depth tl adv).1 = ((sm.x, sm.y) : Move)) := by
  simp only [findBestMove]
  rcases hmoves : getOrderedMoves b player 2 with _ | ⟨m0, rest⟩
  · exact ⟨rfl, Or.inl ⟨rfl, rfl⟩⟩
  · have hl : ∀ sm ∈ m0 :: rest, inBounds sm.x sm.y = true ∧ getCell b sm.x sm.y = EMPTY := by
      intro sm hsm
      exact getOrderedMoves_sound (by rw [hmoves]; exact hsm)
    dsimp only
    by_cases hlen : rest.length = 0
    · rw [if_pos hlen]
      exact ⟨rfl, Or.inr ⟨m0, List.mem_cons_self m0 rest, rfl⟩⟩
    · rw [if_neg hlen]
      obtain ⟨hpb, hpsome, _⟩ := probeScan_spec player (m0 :: rest) b hwf hl
      rcases hps : probeScan player (m0 :: rest) b with ⟨w, b2⟩
      rw [hps] at hpb hpsome
      rw [hpb]
      rcases w with _ | mv
      · dsimp only
        obtain ⟨hqb, hqsome, _⟩ := probeScan_spec (opponent player) (m0 :: rest) b hwf hl
        rcases hqs : probeScan (opponent player) (m0 :: rest) b with ⟨w2, b3⟩
        rw [hqs] at hqb hqsome
        rw [hqb]
        rcases w2 with _ | mv2
        · dsimp only
          obtain ⟨t, hts, htsub⟩ := @take_cons_head m0 rest
          have hltake : ∀ sm ∈ (m0 :: rest).take (min (m0 :: rest).length 20),
              inBounds sm.x sm.y = true ∧ getCell b sm.x sm.y = EMPTY :=
            fun sm hsm => hl sm (List.take_subset _ _ hsm)
          refine ⟨(rootLoop_spec env player (depth - 1) _ _ b _ (-INF) hwf hltake).1,
            Or.inr ?_⟩
          exact (rootLoop_spec env player (depth - 1) _ _ b _ (-INF) hwf hltake).2.elim
            (fun heq => ⟨m0, List.mem_cons_self m0 rest, heq.trans (by rw [hts]; rfl)⟩)
            (fun h => h.elim (fun sm hsm =>
              ⟨sm, List.take_subset _ _ hsm.1, hsm.2⟩))
        · dsimp only
          obtain ⟨⟨sm, hsm, rfl⟩, _⟩ := hqsome mv2 rfl
          exact ⟨rfl, Or.inr ⟨sm, hsm, rfl⟩⟩
      · dsimp only
        obtain ⟨⟨sm, hsm, rfl⟩, _⟩ := hpsome mv rfl
        exact ⟨rfl, Or.inr ⟨sm, hsm, rfl⟩⟩

theorem headI_take20 {moves : List ScoredMove} (hne : moves ≠ []) :
    ∃ sm ∈ moves, (((moves.take 20).headI.x, (moves.take 20).headI.y) : Move) =
      ((sm.x, sm.y) : Move) := by
  rcases moves with _ | ⟨m0, rest⟩
  · exact absurd rfl hne
  · exact ⟨m0, List.mem_cons_self m0 rest, rfl⟩

theorem iterLoop_spec (env : Env) (player : Nat) (moves : List ScoredMove) (b : Board)
    (hwf : WF b = true) (hne : moves ≠ [])
    (hl : ∀ sm ∈ moves, inBounds sm.x sm.y = true ∧ getCell b sm.x sm.y = EMPTY) :
    ∀ (r depth : Nat) (s : SState) (best : Option Move),
      (iterLoop env player moves r depth s b best).2.2 = b ∧
      ((iterLoop env player moves r depth s b best).1 = best ∨
        ∃ sm ∈ moves,
          (iterLoop env player moves r depth s b best).1 = some ((sm.x, sm.y) : Move)) := by
  intro r
  induction r with
  | zero => exact fun depth s best => ⟨rfl, Or.inl rfl⟩
  | succ n ih =>
    intro depth s best
    simp only [iterLoop]
    have hltake : ∀ sm ∈ moves.take 20,
        inBounds sm.x sm.y = true ∧ getCell b sm.x sm.y = EMPTY :=
      fun sm hsm => hl sm (List.take_subset _ _ hsm)
    obtain ⟨hrb, hrmem⟩ := rootLoop_spec env player (depth - 1) (moves.take 20)
      { s with nodesSearched := 0, timedOut := false } b
      ((moves.take 20).headI.x, (moves.take 20).headI.y) (-INF) hwf hltake
    rcases hX : rootLoop env player (depth - 1) (moves.take 20)
        { s with nodesSearched := 0, timedOut := false } b
        ((moves.take 20).headI.x, (moves.take 20).headI.y) (-INF) with ⟨mv1, sc1, s2, b2⟩
    rw [hX] at hrb hrmem
    rw [hrb]
    have hmv1 : ∃ sm ∈ moves, mv1 = ((sm.x, sm.y) : Move) := by
      rcases hrmem with h | ⟨sm, hsm, h⟩
      · obtain ⟨sm, hsm, he⟩ := headI_take20 hne
        exact ⟨sm, hsm, h.trans he⟩
      · exact ⟨sm, List.take_subset _ _ hsm, h⟩
    have hbst : (if ¬ s2.timedOut then some mv1 else best) = best ∨
        ∃ sm ∈ moves,
          (if ¬ s2.timedOut then some mv1 else best) = some ((sm.x, sm.y) : Move) := by
      split
      · obtain ⟨sm, hsm, h⟩ := hmv1
        exact Or.inr ⟨sm, hsm, by rw [h]⟩
      · exact Or.inl rfl
    split
    · exact ⟨rfl, hbst⟩
    · split
      · exact ⟨rfl, hbst⟩
      · obtain ⟨ihb, ihmem⟩ := ih (depth + 1) (callNow env s2).2
          (if ¬ s2.timedOut then some mv1 else best)
        refine ⟨ihb, ?_⟩
        rcases ihmem with h | h
        · rw [h]
          exact hbst
        · exact Or.inr h

theorem findBestMoveIterative_spec (env : Env) (s : SState) (b : Board) (player : Nat)
    (maxDepth : Nat) (tl : Nat) (adv : Bool) (hwf : WF b = true) :
    (findBestMoveIterative env s b player maxDepth tl adv).2.2 = b ∧
    ((getOrderedMoves b player 2 = [] ∧
        (findBestMoveIterative env s b player maxDepth tl adv).1 = ((CENTER, CENTER) : Move)) ∨
      ∃ sm ∈ getOrderedMoves b player 2,
        (findBestMoveIterative env s b player maxDepth tl adv).1 = ((sm.x, sm.y) : Move)) := by
  simp only [findBestMoveIterative]
  rcases hmoves : getOrderedMoves b player 2 with _ | ⟨m0, rest⟩
  · exact ⟨rfl, Or.inl ⟨rfl, rfl⟩⟩
  · have hl : ∀ sm ∈ m0 :: rest, inBounds sm.x sm.y = true ∧ getCell b sm.x sm.y = EMPTY := by
      intro sm hsm
      exact getOrderedMoves_sound (by rw [hmoves]; exact hsm)
    dsimp only
    obtain ⟨hpb, hpsome, _⟩ := probeScan_spec player (m0 :: rest) b hwf hl
    rcases hps : probeScan player (m0 :: rest) b with ⟨w, b2⟩
    rw [hps] at hpb hpsome
    rw [hpb]
    rcases w with _ | mv
    · dsimp only
      obtain ⟨hqb, hqsome, _⟩ := probeScan_spec (opponent player) (m0 :: rest) b hwf hl
      rcases hqs : probeScan (opponent player) (m0 :: rest) b with ⟨w2, b3⟩
      rw [hqs] at hqb hqsome
      rw [hqb]
      rcases w2 with _ | mv2
      · dsimp only
        have hil := iterLoop_spec env player (m0 :: rest) b hwf (List.cons_ne_nil m0 rest) hl
        refine ⟨(hil maxDepth 1 _ none).1, Or.inr ?_⟩
        exact ((hil maxDepth 1 _ none).2).elim
          (fun h => ⟨m0, List.mem_cons_self m0 rest, by rw [h]; rfl⟩)
          (fun h => h.elim fun sm hsm => ⟨sm, hsm.1, by rw [hsm.2]; rfl⟩)
      · dsimp only
        obtain ⟨⟨sm, hsm, rfl⟩, _⟩ := hqsome mv2 rfl
        exact ⟨rfl, Or.inr ⟨sm, hsm, rfl⟩⟩
    · dsimp only
      obtain ⟨⟨sm, hsm, rfl⟩, _⟩ := hpsome mv rfl
      exact ⟨rfl, Or.inr ⟨sm, hsm, rfl⟩⟩

/-- C2: for every well-formed board, player, depth, maximum depth, time limit
and evaluator flag, both `findBestMove` and `findBestMoveIterative` return the
board exactly as it was passed in: every probe placement and every search
placement is undone on every exit path (including the timed-out path, which is
one of the branches of `iterLoop`/`rootLoop` covered by the quantification
over the clock oracle `env`). -/
theorem search_board_restored (env : Env) (s : SState) (b : Board) (player : Nat)
    (depth maxDepth tl tl2 : Nat) (adv adv2 : Bool) (hwf : WF b = true) :
    (findBestMove env s b player depth tl adv).2.2 = b ∧
    (findBestMoveIterative env s b player maxDepth tl2 adv2).2.2 = b :=
  ⟨(findBestMove_spec env s b player depth tl adv hwf).1,
   (findBestMoveIterative_spec env s b player maxDepth tl2 adv2 hwf).1⟩

theorem search_board_restored_witness :
    WF emptyB = true ∧
    ((findBestMove envZero newEngine emptyB 1 2 50 false).2.2 = emptyB ∧
     (findBestMoveIterative envZero newEngine emptyB 1 2 50 false).2.2 = emptyB) :=
  ⟨by decide,
   search_board_restored envZero newEngine emptyB 1 2 2 50 50 false false (by decide)⟩

theorem getCell_values {b : Board} (hv : valuesOK b = true) (i j : Int) :
    getCell b i j = 0 ∨ getCell b i j = 1 ∨ getCell b i j = 2 := by
  simp only [getCell]
  split
  · by_cases hx : i.toNat < b.length
    · by_cases hy : j.toNat < (b.getD i.toNat []).length
      · have hrow : b.getD i.toNat [] ∈ b := list_getD_mem b i.toNat [] hx
        have hcell : (b.getD i.toNat []).getD j.toNat 0 ∈ b.getD i.toNat [] :=
          list_getD_mem _ _ _ hy
        simp only [valuesOK, List.all_eq_true] at hv
        have h2 := hv _ hrow _ hcell
        simp only [Bool.or_eq_true, beq_iff_eq] at h2
        tauto
      · rw [List.getD_eq_default _ _ (Nat.le_of_not_lt hy)]
        exact Or.inl rfl
    · rw [List.getD_eq_default _ _ (Nat.le_of_not_lt hx)]
      exact Or.inl rfl
  · exact Or.inl rfl

theorem cascade_eq (q player n op : Nat) :
    (if n ≥ 5 then (if q = player then ((SCORES.FIVE : ℚ), (0 : ℚ)) else (0, SCORES.FIVE))
     else if op = 0 then (0, 0)
     else if q = player then
       ((if n = 4 then (if op = 2 then SCORES.OPEN_FOUR else SCORES.HALF_OPEN_FOUR)
         else if n = 3 then (if op = 2 then SCORES.OPEN_THREE else SCORES.HALF_OPEN_THREE)
         else if n = 2 then (if op = 2 then SCORES.OPEN_TWO else SCORES.HALF_OPEN_TWO)
         else if n = 1 then (if op = 2 then SCORES.OPEN_ONE else 0) else 0), 0)
     else
       (0,
        (if n = 4 then (if op = 2 then SCORES.OPEN_FOUR else SCORES.HALF_OPEN_FOUR)
         else if n = 3 then (if op = 2 then SCORES.OPEN_THREE else SCORES.HALF_OPEN_THREE)
         else if n = 2 then (if op = 2 then SCORES.OPEN_TWO else SCORES.HALF_OPEN_TWO)
         else if n = 1 then (if op = 2 then SCORES.OPEN_ONE else 0) else 0))) =
    if q = player then ((patternWeight n op : ℚ), (0 : ℚ)) else (0, patternWeight n op) := by
  simp only [patternWeight]
  split_ifs <;> rfl

set_option maxHeartbeats 1000000 in
theorem evalCellDir_pattern (b : Board) (player : Nat) (dx dy i j : Int)
    (hq0 : getCell b i j ≠ 0)
    (hnotprev : ¬ (inBounds (i - dx) (j - dy) = true ∧
      getCell b (i - dx) (j - dy) = getCell b i j)) :
    evalCellDir b player dx dy i j =
      if getCell b i j = player then
        (patternWeight (runLenFrom b i j dx dy (getCell b i j)) (openEndsAt b i j dx dy), 0)
      else
        (0, patternWeight (runLenFrom b i j dx dy (getCell b i j)) (openEndsAt b i j dx dy)) := by
  simp only [evalCellDir, openEndsAt, EMPTY]
  rw [if_neg (fun h => hnotprev ⟨h.1, h.2.1⟩)]
  rw [if_neg hq0]
  exact cascade_eq (getCell b i j) player _ _

theorem evalCellDir_eq (b : Board) (player : Nat) (dx dy i j : Int)
    (hv : valuesOK b = true) (hp : player = BLACK ∨ player = WHITE) :
    evalCellDir b player dx dy i j =
      (runStartWeight b player dx dy i j, runStartWeight b (opponent player) dx dy i j) := by
  have hov : opponent player = (if player = BLACK then WHITE else BLACK) := rfl
  rcases hp with rfl | rfl <;> rcases getCell_values hv i j with hc | hc | hc
  · simp [evalCellDir, runStartWeight, opponent, hc, EMPTY, BLACK, WHITE]
  · by_cases hprev : inBounds (i - dx) (j - dy) = true ∧ getCell b (i - dx) (j - dy) = 1
    · simp [evalCellDir, runStartWeight, opponent, hc, hprev, EMPTY, BLACK, WHITE]
    · rw [evalCellDir_pattern b BLACK dx dy i j (by rw [hc]; exact one_ne_zero)
        (by rw [hc]; exact hprev)]
      rw [hc]
      simp [runStartWeight, opponent, hc, hprev, BLACK, WHITE]
  · by_cases hprev : inBounds (i - dx) (j - dy) = true ∧ getCell b (i - dx) (j - dy) = 2
    · simp [evalCellDir, runStartWeight, opponent, hc, hprev, EMPTY, BLACK, WHITE]
    · rw [evalCellDir_pattern b BLACK dx dy i j (by rw [hc]; exact two_ne_zero)
        (by rw [hc]; exact hprev)]
      rw [hc]
      simp [runStartWeight, opponent, hc, hprev, BLACK, WHITE]
  · simp [evalCellDir, runStartWeight, opponent, hc, EMPTY, BLACK, WHITE]
  · by_cases hprev : inBounds (i - dx) (j - dy) = true ∧ getCell b (i - dx) (j - dy) = 1
    · simp [evalCellDir, runStartWeight, opponent, hc, hprev, EMPTY, BLACK, WHITE]
    · rw [evalCellDir_pattern b WHITE dx dy i j (by rw [hc]; exact one_ne_zero)
        (by rw [hc]; exact hprev)]
      rw [hc]
      simp [runStartWeight, opponent, hc, hprev, BLACK, WHITE]
  · by_cases hprev : inBounds (i - dx) (j - dy) = true ∧ getCell b (i - dx) (j - dy) = 2
    · simp [evalCellDir, runStartWeight, opponent, hc, hprev, EMPTY, BLACK, WHITE]
    · rw [evalCellDir_pattern b WHITE dx dy i j (by rw [hc]; exact two_ne_zero)
        (by rw [hc]; exact hprev)]
      rw [hc]
      simp [runStartWeight, opponent, hc, hprev, BLACK, WHITE]

theorem inner_fold_eval (b : Board) (player : Nat) (dx dy : Int)
    (hv : valuesOK b = true) (hp : player = BLACK ∨ player = WHITE) :
    ∀ (l : List (Int × Int)) (acc : ℚ × ℚ),
      l.foldl (fun acc2 c =>
        ((acc2.1 + (evalCellDir b player dx dy c.1 c.2).1,
          acc2.2 + (evalCellDir b player dx dy c.1 c.2).2) : ℚ × ℚ)) acc =
      (acc.1 + (l.map (fun c => runStartWeight b player dx dy c.1 c.2)).sum,
       acc.2 + (l.map (fun c => runStartWeight b (opponent player) dx dy c.1 c.2)).sum) := by
  intro l
  induction l with
  | nil => intro acc; simp
  | cons c t ih =>
    intro acc
    simp only [List.foldl_cons, List.map_cons, List.sum_cons]
    rw [ih]
    rw [evalCellDir_eq b player dx dy c.1 c.2 hv hp]
    exact Prod.ext (by dsimp only; ring) (by dsimp only; ring)

theorem evalPair_fold (b : Board) (player : Nat)
    (hv : valuesOK b = true) (hp : player = BLACK ∨ player = WHITE) :
    ∀ (ds : List (Int × Int)) (acc : ℚ × ℚ),
      ds.foldl (fun acc d =>
        cellIdxs.foldl (fun acc2 c =>
          ((acc2.1 + (evalCellDir b player d.1 d.2 c.1 c.2).1,
            acc2.2 + (evalCellDir b player d.1 d.2 c.1 c.2).2) : ℚ × ℚ)) acc) acc =
      (acc.1 + (ds.map (fun d =>
          (cellIdxs.map (fun c => runStartWeight b player d.1 d.2 c.1 c.2)).sum)).sum,
       acc.2 + (ds.map (fun d =>
          (cellIdxs.map (fun c => runStartWeight b (opponent player) d.1 d.2 c.1 c.2)).sum)).sum) := by
  intro ds
  induction ds with
  | nil => intro acc; simp
  | cons d t ih =>
    intro acc
    simp only [List.foldl_cons, List.map_cons, List.sum_cons]
    rw [inner_fold_eval b player d.1 d.2 hv hp cellIdxs acc]
    rw [ih]
    exact Prod.ext (by dsimp only; ring) (by dsimp only; ring)

theorem runTotal_fold (b : Board) (q : Nat) :
    ∀ (ds : List (Int × Int)) (a : ℚ),
      ds.foldl (fun acc d =>
        acc + (cellIdxs.map (fun c => runStartWeight b q d.1 d.2 c.1 c.2)).sum) a =
      a + (ds.map (fun d =>
        (cellIdxs.map (fun c => runStartWeight b q d.1 d.2 c.1 c.2)).sum)).sum := by
  intro ds
  induction ds with
  | nil => intro a; simp
  | cons d t ih =>
    intro a
    simp only [List.foldl_cons, List.map_cons, List.sum_cons]
    rw [ih]
    ring

/-- C7: for every board holding only legal cell values and either perspective
player, `evaluateBoard` returns `myScore - 1.1 * opponentScore`, where
`myScore` is the pattern-table total of the player's maximal runs (each run
classified by its length and open-end count, length at least 5 valued at the
terminal five-weight, fully closed shorter runs at zero) plus the
center-proximity bonus `max(0, 7 - Manhattan distance)` over the player's own
stones only, and `opponentScore` is the same pattern-table total for the
opponent's runs with no center bonus. -/
theorem evaluateBoard_decomposition (b : Board) (player : Nat)
    (hv : valuesOK b = true) (hp : player = BLACK ∨ player = WHITE) :
    evaluateBoard b player =
      (runTotal b player + centerBonus b player) -
        (11 / 10) * runTotal b (opponent player) := by
  simp only [evaluateBoard, runTotal, centerBonus]
  rw [evalPair_fold b player hv hp DIRECTIONS ((0 : ℚ), (0 : ℚ))]
  rw [runTotal_fold b player DIRECTIONS 0, runTotal_fold b (opponent player) DIRECTIONS 0]
  dsimp only
  ring

theorem evaluateBoard_decomposition_witness :
    (valuesOK bOpp3 = true ∧ ((1 : Nat) = BLACK ∨ (1 : Nat) = WHITE)) ∧
    evaluateBoard bOpp3 1 =
      (runTotal bOpp3 1 + centerBonus bOpp3 1) - (11 / 10) * runTotal bOpp3 (opponent 1) :=
  ⟨⟨by decide, Or.inl rfl⟩, evaluateBoard_decomposition bOpp3 1 (by decide) (Or.inl rfl)⟩

theorem getCell_ne_empty_inBounds {b : Board} {x y : Int}
    (h : getCell b x y ≠ EMPTY) : inBounds x y = true := by
  by_contra hin
  exact h (by simp only [getCell, if_neg hin]; rfl)

theorem dir_facts {d : Int × Int} (hd : d ∈ DIRECTIONS) :
    (-1 ≤ d.1 ∧ d.1 ≤ 1) ∧ (-1 ≤ d.2 ∧ d.2 ≤ 1) ∧ ¬ (d.1 = 0 ∧ d.2 = 0) := by
  simp only [DIRECTIONS, List.mem_cons, List.not_mem_nil, or_false] at hd
  rcases hd with rfl | rfl | rfl | rfl <;> norm_num

theorem cellIdxs_nodup : cellIdxs.Nodup := by
  set_option maxRecDepth 40000 in decide

theorem countStones_ge_three {b : Board} {c1 c2 c3 : Int × Int}
    (hn : c1 ≠ c2 ∧ c1 ≠ c3 ∧ c2 ≠ c3)
    (h1 : getCell b c1.1 c1.2 ≠ EMPTY) (h2 : getCell b c2.1 c2.2 ≠ EMPTY)
    (h3 : getCell b c3.1 c3.2 ≠ EMPTY) : 3 ≤ countStones b := by
  have hm : ∀ c : Int × Int, getCell b c.1 c.2 ≠ EMPTY →
      c ∈ cellIdxs.filter (fun c => !(getCell b c.1 c.2 == EMPTY)) := by
    intro c hc
    rw [List.mem_filter]
    exact ⟨mem_cellIdxs.2 (getCell_ne_empty_inBounds hc), by simpa using hc⟩
  have hsub : [c1, c2, c3] ⊆ cellIdxs.filter (fun c => !(getCell b c.1 c.2 == EMPTY)) := by
    intro c hc
    simp only [List.mem_cons, List.not_mem_nil, or_false] at hc
    rcases hc with rfl | rfl | rfl
    · exact hm _ h1
    · exact hm _ h2
    · exact hm _ h3
  have hnodup : ([c1, c2, c3] : List (Int × Int)).Nodup := by
    simp [hn.1, hn.2.1, hn.2.2]
  have := (hnodup.subperm hsub).length_le
  simpa [countStones, List.countP_eq_length_filter] using this

theorem checkWin_persist {b : Board} {p : Nat} (x y : Int) (v : Nat) (hwf : WF b = true)
    (hp0 : p ≠ 0) (he : getCell b x y = EMPTY) (hw : checkWin b p = true) :
    checkWin (setCell b x y v) p = true := by
  rw [checkWin_iff_hasRunOfFive] at hw ⊢
  simp only [hasRunOfFive, List.any_eq_true] at hw ⊢
  obtain ⟨d, hd, c, hc, hrun⟩ := hw
  refine ⟨d, hd, c, hc, ?_⟩
  simp only [runAt, List.all_eq_true, List.mem_range, Bool.and_eq_true, beq_iff_eq,
    decide_eq_true_eq] at hrun ⊢
  intro k hk
  obtain ⟨hin, hcell⟩ := hrun k hk
  have hne : ((c.1 + d.1 * (k : Int), c.2 + d.2 * (k : Int)) : Int × Int) ≠ (x, y) := by
    intro hxy
    rw [Prod.mk.injEq] at hxy
    rw [hxy.1, hxy.2] at hcell
    rw [he] at hcell
    exact hp0 hcell.symm
  rw [getCell_setCell_other v hwf hne]
  exact ⟨hin, hcell⟩

theorem win_run {b : Board} {p : Nat} {x y : Int}
    (hw : checkWin (setCell b x y p) p = true) :
    ∃ d ∈ DIRECTIONS, ∃ c : Int × Int, ∀ k : Nat, k < 5 →
      inBounds (c.1 + d.1 * (k : Int)) (c.2 + d.2 * (k : Int)) = true ∧
      getCell (setCell b x y p) (c.1 + d.1 * (k : Int)) (c.2 + d.2 * (k : Int)) = p := by
  rw [checkWin_iff_hasRunOfFive] at hw
  simp only [hasRunOfFive, List.any_eq_true] at hw
  obtain ⟨d, hd, c, _, hrun⟩ := hw
  refine ⟨d, hd, c, ?_⟩
  simp only [runAt, List.all_eq_true, List.mem_range, Bool.and_eq_true, beq_iff_eq,
    decide_eq_true_eq] at hrun
  exact fun k hk => hrun k hk

theorem win_analysis {b : Board} {p : Nat} {x y : Int} (hwf : WF b = true) (hp0 : p ≠ 0)
    (he : getCell b x y = EMPTY) (hw : checkWin (setCell b x y p) p = true) :
    (∃ c1 c2 c3 : Int × Int, (c1 ≠ c2 ∧ c1 ≠ c3 ∧ c2 ≠ c3) ∧
       getCell b c1.1 c1.2 ≠ EMPTY ∧ getCell b c2.1 c2.2 ≠ EMPTY ∧
       getCell b c3.1 c3.2 ≠ EMPTY) ∧
    (checkWin b p = true ∨
      ∃ di dj : Int, (-1 ≤ di ∧ di ≤ 1) ∧ (-1 ≤ dj ∧ dj ≤ 1) ∧
        getCell b (x + di) (y + dj) ≠ EMPTY) := by
  obtain ⟨d, hd, c, hrun⟩ := win_run hw
  obtain ⟨hd1, hd2, hdnz⟩ := dir_facts hd
  have hinj : ∀ k k' : Nat,
      ((c.1 + d.1 * (k : Int), c.2 + d.2 * (k : Int)) : Int × Int) =
        (c.1 + d.1 * (k' : Int), c.2 + d.2 * (k' : Int)) → k = k' := by
    intro k k' hqe
    rw [Prod.mk.injEq] at hqe
    have h1 : d.1 * ((k : Int) - k') = 0 := by linear_combination hqe.1
    have h2 : d.2 * ((k : Int) - k') = 0 := by linear_combination hqe.2
    rcases mul_eq_zero.1 h1 with hz1 | hk1
    · rcases mul_eq_zero.1 h2 with hz2 | hk2
      · exact absurd ⟨hz1, hz2⟩ hdnz
      · omega
    · omega
  have hstone : ∀ k : Nat, k < 5 →
      ((c.1 + d.1 * (k : Int), c.2 + d.2 * (k : Int)) : Int × Int) ≠ (x, y) →
      getCell b (c.1 + d.1 * (k : Int)) (c.2 + d.2 * (k : Int)) = p := by
    intro k hk hne
    have h := (hrun k hk).2
    rwa [getCell_setCell_other p hwf hne] at h
  by_cases hth : ∀ k : Nat, k < 5 →
      ((c.1 + d.1 * (k : Int), c.2 + d.2 * (k : Int)) : Int × Int) ≠ (x, y)
  · refine ⟨⟨(c.1 + d.1 * ((0 : Nat) : Int), c.2 + d.2 * ((0 : Nat) : Int)),
      (c.1 + d.1 * ((1 : Nat) : Int), c.2 + d.2 * ((1 : Nat) : Int)),
      (c.1 + d.1 * ((2 : Nat) : Int), c.2 + d.2 * ((2 : Nat) : Int)),
      ⟨fun h => absurd (hinj 0 1 h) (by norm_num),
       fun h => absurd (hinj 0 2 h) (by norm_num),
       fun h => absurd (hinj 1 2 h) (by norm_num)⟩, ?_, ?_, ?_⟩, Or.inl ?_⟩
    · rw [hstone 0 (by norm_num) (hth 0 (by norm_num))]; exact hp0
    · rw [hstone 1 (by norm_num) (hth 1 (by norm_num))]; exact hp0
    · rw [hstone 2 (by norm_num) (hth 2 (by norm_num))]; exact hp0
    · rw [checkWin_iff_hasRunOfFive]
      simp only [hasRunOfFive, List.any_eq_true]
      refine ⟨d, hd, c, mem_cellIdxs.2 ?_, ?_⟩
      · have h0 := (hrun 0 (by norm_num)).1
        simpa using h0
      · simp only [runAt, List.all_eq_true, List.mem_range, Bool.and_eq_true, beq_iff_eq,
          decide_eq_true_eq]
        intro k hk
        exact ⟨(hrun k hk).1, hstone k hk (hth k hk)⟩
  · push_neg at hth
    obtain ⟨k₀, hk₀5, hk₀⟩ := hth
    rw [Prod.mk.injEq] at hk₀
    have pick : ∀ m : Nat, m < 5 → m ≠ k₀ →
        getCell b (c.1 + d.1 * (m : Int)) (c.2 + d.2 * (m : Int)) = p := by
      intro m hm hne
      refine hstone m hm ?_
      intro hqe
      rw [Prod.mk.injEq] at hqe
      exact hne (hinj m k₀ (by
        rw [Prod.mk.injEq]
        exact ⟨hqe.1.trans hk₀.1.symm, hqe.2.trans hk₀.2.symm⟩))
    constructor
    · have hfacts : (if k₀ = 0 then 1 else 0) < 5 ∧ (if k₀ ≤ 1 then 2 else 1) < 5 ∧
          (if k₀ ≤ 2 then 3 else 2) < 5 ∧
          (if k₀ = 0 then 1 else 0) ≠ k₀ ∧ (if k₀ ≤ 1 then 2 else 1) ≠ k₀ ∧
          (if k₀ ≤ 2 then 3 else 2) ≠ k₀ ∧
          (if k₀ = 0 then 1 else 0) ≠ (if k₀ ≤ 1 then 2 else 1) ∧
          (if k₀ = 0 then 1 else 0) ≠ (if k₀ ≤ 2 then 3 else 2) ∧
          (if k₀ ≤ 1 then 2 else 1) ≠ (if k₀ ≤ 2 then 3 else 2) := by
        split_ifs <;> omega
      obtain ⟨hl1, hl2, hl3, hn1, hn2, hn3, hd12, hd13, hd23⟩ := hfacts
      refine ⟨(c.1 + d.1 * ((if k₀ = 0 then 1 else 0 : Nat) : Int),
          c.2 + d.2 * ((if k₀ = 0 then 1 else 0 : Nat) : Int)),
        (c.1 + d.1 * ((if k₀ ≤ 1 then 2 else 1 : Nat) : Int),
          c.2 + d.2 * ((if k₀ ≤ 1 then 2 else 1 : Nat) : Int)),
        (c.1 + d.1 * ((if k₀ ≤ 2 then 3 else 2 : Nat) : Int),
          c.2 + d.2 * ((if k₀ ≤ 2 then 3 else 2 : Nat) : Int)),
        ⟨fun h => absurd (hinj _ _ h) hd12,
         fun h => absurd (hinj _ _ h) hd13,
         fun h => absurd (hinj _ _ h) hd23⟩, ?_, ?_, ?_⟩
      · rw [pick _ hl1 hn1]; exact hp0
      · rw [pick _ hl2 hn2]; exact hp0
      · rw [pick _ hl3 hn3]; exact hp0
    · right
      by_cases hk0 : k₀ = 0
      · refine ⟨d.1, d.2, hd1, hd2, ?_⟩
        have h1 := pick 1 (by norm_num) (by omega)
        have hx : c.1 + d.1 * ((1 : Nat) : Int) = x + d.1 := by
          have hc1 : c.1 + d.1 * ((k₀ : Nat) : Int) = x := hk₀.1
          rw [hk0] at hc1
          push_cast at hc1 ⊢
          linarith
        have hy : c.2 + d.2 * ((1 : Nat) : Int) = y + d.2 := by
          have hc2 : c.2 + d.2 * ((k₀ : Nat) : Int) = y := hk₀.2
          rw [hk0] at hc2
          push_cast at hc2 ⊢
          linarith
        rw [hx, hy] at h1
        rw [h1]; exact hp0
      · refine ⟨-d.1, -d.2, ⟨by linarith [hd1.2], by linarith [hd1.1]⟩,
          ⟨by linarith [hd2.2], by linarith [hd2.1]⟩, ?_⟩
        have h1 := pick (k₀ - 1) (by omega) (by omega)
        have hcast : ((k₀ - 1 : Nat) : Int) = (k₀ : Int) - 1 := by omega
        have hx : c.1 + d.1 * ((k₀ - 1 : Nat) : Int) = x + -d.1 := by
          rw [hcast]; linear_combination hk₀.1
        have hy : c.2 + d.2 * ((k₀ - 1 : Nat) : Int) = y + -d.2 := by
          rw [hcast]; linear_combination hk₀.2
        rw [hx, hy] at h1
        rw [h1]; exact hp0

theorem inBounds_iff {x y : Int} :
    inBounds x y = true ↔ 0 ≤ x ∧ x < 15 ∧ 0 ≤ y ∧ y < 15 := by
  simp only [inBounds, Bool.and_eq_true, decide_eq_true_eq]
  omega

theorem exists_adjacent_empty (b : Board) (hwf : WF b = true) :
    ∀ n : Nat, ∀ s t : Int × Int,
      (s.1 - t.1).natAbs + (s.2 - t.2).natAbs = n →
      getCell b s.1 s.2 ≠ EMPTY → inBounds t.1 t.2 = true → getCell b t.1 t.2 = EMPTY →
      ∃ u : Int × Int, inBounds u.1 u.2 = true ∧ getCell b u.1 u.2 = EMPTY ∧
        ∃ di dj : Int, (-1 ≤ di ∧ di ≤ 1) ∧ (-1 ≤ dj ∧ dj ≤ 1) ∧
          getCell b (u.1 + di) (u.2 + dj) ≠ EMPTY := by
  intro n
  induction n using Nat.strong_induction_on with
  | _ n ih =>
    intro s t hdist hs ht hte
    have hsin := getCell_ne_empty_inBounds hs
    have hsb := inBounds_iff.1 hsin
    have htb := inBounds_iff.1 ht
    have hstep : ∀ di dj : Int, (-1 ≤ di ∧ di ≤ 1) → (-1 ≤ dj ∧ dj ≤ 1) →
        inBounds (s.1 + di) (s.2 + dj) = true →
        ((s.1 + di) - t.1).natAbs + ((s.2 + dj) - t.2).natAbs < n →
        ∃ u : Int × Int, inBounds u.1 u.2 = true ∧ getCell b u.1 u.2 = EMPTY ∧
          ∃ di dj : Int, (-1 ≤ di ∧ di ≤ 1) ∧ (-1 ≤ dj ∧ dj ≤ 1) ∧
            getCell b (u.1 + di) (u.2 + dj) ≠ EMPTY := by
      intro di dj hdi hdj huin hlt
      by_cases hue : getCell b (s.1 + di) (s.2 + dj) = EMPTY
      · refine ⟨(s.1 + di, s.2 + dj), huin, hue, -di, -dj,
          ⟨by omega, by omega⟩, ⟨by omega, by omega⟩, ?_⟩
        have e1 : s.1 + di + -di = s.1 := by ring
        have e2 : s.2 + dj + -dj = s.2 := by ring
        dsimp only
        rw [e1, e2]
        exact hs
      · exact ih _ hlt (s.1 + di, s.2 + dj) t rfl hue ht hte
    by_cases hx : s.1 = t.1
    · by_cases hy : s.2 = t.2
      · exact absurd (by rw [hx, hy]; exact hte) hs
      · by_cases hss : s.2 < t.2
        · exact hstep 0 1 (by norm_num) (by norm_num) (inBounds_iff.2 (by omega)) (by omega)
        · exact hstep 0 (-1) (by norm_num) (by norm_num) (inBounds_iff.2 (by omega)) (by omega)
    · by_cases hss : s.1 < t.1
      · exact hstep 1 0 (by norm_num) (by norm_num) (inBounds_iff.2 (by omega)) (by omega)
      · exact hstep (-1) 0 (by norm_num) (by norm_num) (inBounds_iff.2 (by omega)) (by omega)

theorem exists_winning_candidate (b : Board) (p : Nat) (r : Int) (hwf : WF b = true)
    (hp0 : p ≠ 0) (hr : 1 ≤ r)
    (hwin : ∃ e : Move, inBounds e.1 e.2 = true ∧ getCell b e.1 e.2 = EMPTY ∧
      checkWin (setCell b e.1 e.2 p) p = true) :
    ∃ m ∈ generateCandidates b r, checkWin (setCell b m.1 m.2 p) p = true := by
  obtain ⟨e, hein, hee, hw⟩ := hwin
  obtain ⟨hstones, hloc⟩ := win_analysis hwf hp0 hee hw
  rcases hloc with hpre | ⟨di, dj, hdi, hdj, hst⟩
  · obtain ⟨c1, _, _, _, h1, _, _⟩ := hstones
    obtain ⟨u, huin, hue, di, dj, hdi, hdj, hust⟩ :=
      exists_adjacent_empty b hwf _ c1 e rfl h1 hein hee
    refine ⟨u, ?_, checkWin_persist u.1 u.2 p hwf hp0 hue hpre⟩
    exact generateCandidates_complete b r (by omega) u huin hue
      (u.1 + di) (u.2 + dj) (getCell_ne_empty_inBounds hust) hust
      (by omega) (by omega) (by omega) (by omega)
  · refine ⟨e, ?_, hw⟩
    exact generateCandidates_complete b r (by omega) e hein hee
      (e.1 + di) (e.2 + dj) (getCell_ne_empty_inBounds hst) hst
      (by omega) (by omega) (by omega) (by omega)

theorem getOrderedMoves_complete (b : Board) (player : Nat) (r : Int) (m : Move)
    (hm : m ∈ generateCandidates b r) :
    ∃ sm ∈ getOrderedMoves b player r, sm.x = m.1 ∧ sm.y = m.2 := by
  refine ⟨ScoredMove.mk m.1 m.2 (scoreMoveQuick b m.1 m.2 player), ?_, rfl, rfl⟩
  simp only [getOrderedMoves, List.mem_mergeSort]
  exact List.mem_map_of_mem _ hm

theorem easyWinScan_spec (p : Nat) (b : Board) (hwf : WF b = true) :
    ∀ l : List Move, (∀ c ∈ l, getCell b c.1 c.2 = EMPTY) →
      (∀ c, (easyWinScan p l b).1 = some c →
        checkWin (setCell b c.1 c.2 p) p = true) ∧
      ((∃ c ∈ l, checkWin (setCell b c.1 c.2 p) p = true) →
        ∃ c, (easyWinScan p l b).1 = some c) := by
  intro l
  induction l with
  | nil =>
    intro _
    constructor
    · intro c h
      simp [easyWinScan] at h
    · rintro ⟨c, hc, _⟩
      exact absurd hc (List.not_mem_nil c)
  | cons c t ih =>
    intro hl
    have hce := hl c (List.mem_cons_self c t)
    have hrest : setCell (setCell b c.1 c.2 p) c.1 c.2 EMPTY = b :=
      setCell_unmake c.1 c.2 p hwf hce
    simp only [easyWinScan]
    by_cases hcw : checkWin (setCell b c.1 c.2 p) p = true
    · rw [if_pos hcw]
      constructor
      · intro c' hc'
        obtain rfl : c = c' := by simpa using hc'
        exact hcw
      · exact fun _ => ⟨c, rfl⟩
    · rw [if_neg hcw, hrest]
      obtain ⟨ihs, ihc⟩ := ih (fun c' hc' => hl c' (List.mem_cons_of_mem c hc'))
      refine ⟨ihs, ?_⟩
      rintro ⟨c', hc', hw⟩
      rcases List.mem_cons.1 hc' with rfl | hmem
      · exact absurd hw hcw
      · exact ihc ⟨c', hmem, hw⟩

theorem easyMove_wins (env : Env) (b : Board) (p : Nat) (hwf : WF b = true) (hp0 : p ≠ 0)
    (hwin : ∃ e : Move, inBounds e.1 e.2 = true ∧ getCell b e.1 e.2 = EMPTY ∧
      checkWin (setCell b e.1 e.2 p) p = true) :
    checkWin (setCell b (easyMove env b p).1.1 (easyMove env b p).1.2 p) p = true := by
  obtain ⟨m, hm, hmw⟩ := exists_winning_candidate b p 1 hwf hp0 le_rfl hwin
  obtain ⟨hsound, hcomp⟩ := easyWinScan_spec p b hwf (generateCandidates b 1)
    (fun c hc => (generateCandidates_sound b 1 c hc).2)
  simp only [easyMove]
  rcases hcands : generateCandidates b 1 with _ | ⟨c0, crest⟩
  · rw [hcands] at hm
    exact absurd hm (List.not_mem_nil m)
  · rw [hcands] at hsound hcomp hm
    obtain ⟨cw, hcw⟩ := hcomp ⟨m, hm, hmw⟩
    dsimp only
    rcases hws : easyWinScan p (c0 :: crest) b with ⟨w, b2⟩
    rw [hws] at hcw hsound
    obtain rfl : w = some cw := hcw
    exact hsound cw rfl

theorem findBestMove_wins (env : Env) (s : SState) (b : Board) (p : Nat)
    (depth tl : Nat) (adv : Bool) (hwf : WF b = true) (hp0 : p ≠ 0)
    (hwin : ∃ e : Move, inBounds e.1 e.2 = true ∧ getCell b e.1 e.2 = EMPTY ∧
      checkWin (setCell b e.1 e.2 p) p = true) :
    checkWin (setCell b (findBestMove env s b p depth tl adv).1.1
      (findBestMove env s b p depth tl adv).1.2 p) p = true := by
  obtain ⟨m, hm, hmw⟩ := exists_winning_candidate b p 2 hwf hp0 (by norm_num) hwin
  obtain ⟨smw, hsmw, hsx, hsy⟩ := getOrderedMoves_complete b p 2 m hm
  simp only [findBestMove]
  rcases hmoves : getOrderedMoves b p 2 with _ | ⟨m0, rest⟩
  · rw [hmoves] at hsmw
    exact absurd hsmw (List.not_mem_nil smw)
  · rw [hmoves] at hsmw
    have hl : ∀ sm ∈ m0 :: rest, inBounds sm.x sm.y = true ∧ getCell b sm.x sm.y = EMPTY := by
      intro sm hsm
      exact getOrderedMoves_sound (by rw [hmoves]; exact hsm)
    obtain ⟨hpb, hpsome, hpnone⟩ := probeScan_spec p (m0 :: rest) b hwf hl
    dsimp only
    by_cases hlen : rest.length = 0
    · rw [if_pos hlen]
      obtain rfl : rest = [] := List.length_eq_zero.1 hlen
      rcases List.mem_cons.1 hsmw with rfl | hemp
      · dsimp only
        rw [← hsx, ← hsy] at hmw
        exact hmw
      · exact absurd hemp (List.not_mem_nil smw)
    · rw [if_neg hlen]
      rcases hps : probeScan p (m0 :: rest) b with ⟨w, b2⟩
      rw [hps] at hpsome hpnone
      rcases w with _ | mv
      · exfalso
        have hall := hpnone rfl smw hsmw
        rw [hsx, hsy] at hall
        rw [hmw] at hall
        exact absurd hall (by decide)
      · dsimp only
        exact (hpsome mv rfl).2

theorem findBestMoveIterative_wins (env : Env) (s : SState) (b : Board) (p : Nat)
    (maxDepth tl : Nat) (adv : Bool) (hwf : WF b = true) (hp0 : p ≠ 0)
    (hwin : ∃ e : Move, inBounds e.1 e.2 = true ∧ getCell b e.1 e.2 = EMPTY ∧
      checkWin (setCell b e.1 e.2 p) p = true) :
    checkWin (setCell b (findBestMoveIterative env s b p maxDepth tl adv).1.1
      (findBestMoveIterative env s b p maxDepth tl adv).1.2 p) p = true := by
  obtain ⟨m, hm, hmw⟩ := exists_winning_candidate b p 2 hwf hp0 (by norm_num) hwin
  obtain ⟨smw, hsmw, hsx, hsy⟩ := getOrderedMoves_complete b p 2 m hm
  simp only [findBestMoveIterative]
  rcases hmoves : getOrderedMoves b p 2 with _ | ⟨m0, rest⟩
  · rw [hmoves] at hsmw
    exact absurd hsmw (List.not_mem_nil smw)
  · rw [hmoves] at hsmw
    have hl : ∀ sm ∈ m0 :: rest, inBounds sm.x sm.y = true ∧ getCell b sm.x sm.y = EMPTY := by
      intro sm hsm
      exact getOrderedMoves_sound (by rw [hmoves]; exact hsm)
    obtain ⟨hpb, hpsome, hpnone⟩ := probeScan_spec p (m0 :: rest) b hwf hl
    dsimp only
    rcases hps : probeScan p (m0 :: rest) b with ⟨w, b2⟩
    rw [hps] at hpsome hpnone
    rcases w with _ | mv
    · exfalso
      have hall := hpnone rfl smw hsmw
      rw [hsx, hsy] at hall
      rw [hmw] at hall
      exact absurd hall (by decide)
    · dsimp only
      exact (hpsome mv rfl).2

theorem masterMove_wins (env : Env) (b : Board) (p : Nat) (hwf : WF b = true) (hp0 : p ≠ 0)
    (hwin : ∃ e : Move, inBounds e.1 e.2 = true ∧ getCell b e.1 e.2 = EMPTY ∧
      checkWin (setCell b e.1 e.2 p) p = true) :
    checkWin (setCell b (masterMove env b p).1.1 (masterMove env b p).1.2 p) p = true := by
  have hcount : 3 ≤ countStones b := by
    obtain ⟨e, hein, hee, hw⟩ := hwin
    obtain ⟨⟨c1, c2, c3, hn, h1, h2, h3⟩, _⟩ := win_analysis hwf hp0 hee hw
    exact countStones_ge_three hn h1 h2 h3
  simp only [masterMove]
  rw [if_neg (by omega : ¬ countStones b = 0)]
  rw [if_neg (fun h => absurd h.1 (by omega : ¬ countStones b = 1))]
  rw [if_neg (fun h => absurd h.1 (by omega : ¬ countStones b = 1))]
  rw [if_neg (fun h => absurd h.1 (by omega : ¬ countStones b = 2))]
  exact findBestMoveIterative_wins env newEngine b p 6 2000 true hwf hp0 hwin

/-- C4: on every well-formed board where the acting player has an immediate
win available (an empty in-bounds cell whose placement makes five in a row),
`getMove` at each of the four difficulty tiers returns a cell whose placement
gives the acting player five in a row; the clock and random oracles (hence
search depth cut-offs and time budgets) are universally quantified, so the
result does not depend on them. -/
theorem getMove_immediate_win (env : Env) (b : Board) (player : Nat)
    (hwf : WF b = true) (hp : player = BLACK ∨ player = WHITE)
    (hwin : ∃ e : Move, inBounds e.1 e.2 = true ∧ getCell b e.1 e.2 = EMPTY ∧
      checkWin (setCell b e.1 e.2 player) player = true) :
    ∀ diff ∈ (["easy", "medium", "hard", "master"] : List String),
      checkWin (setCell b (getMove env ⟨diff⟩ b player).1.1
        (getMove env ⟨diff⟩ b player).1.2 player) player = true := by
  have hp0 : player ≠ 0 := by rcases hp with rfl | rfl <;> simp [BLACK, WHITE]
  have hlen : ¬ b.length = 0 := by
    obtain ⟨h15, _⟩ := WF_split hwf
    omega
  intro diff hdiff
  simp only [List.mem_cons, List.not_mem_nil, or_false] at hdiff
  rcases hdiff with rfl | rfl | rfl | rfl
  · simp only [getMove]
    rw [if_neg hlen, if_pos trivial]
    exact easyMove_wins env b player hwf hp0 hwin
  · simp only [getMove]
    rw [if_neg hlen, if_neg (by decide), if_pos trivial]
    exact findBestMove_wins env newEngine b player 2 1000 false hwf hp0 hwin
  · simp only [getMove]
    rw [if_neg hlen, if_neg (by decide), if_neg (by decide), if_pos trivial]
    exact findBestMove_wins env newEngine b player 4 3000 true hwf hp0 hwin
  · simp only [getMove]
    rw [if_neg hlen, if_neg (by decide), if_neg (by decide), if_neg (by decide), if_pos trivial]
    exact masterMove_wins env b player hwf hp0 hwin

theorem getMove_immediate_win_witness :
    (WF bFour = true ∧ ((1 : Nat) = BLACK ∨ (1 : Nat) = WHITE) ∧
      inBounds 7 4 = true ∧ getCell bFour 7 4 = EMPTY ∧
      checkWin (setCell bFour 7 4 1) 1 = true) ∧
    ∀ diff ∈ (["easy", "medium", "hard", "master"] : List String),
      checkWin (setCell bFour (getMove envZero ⟨diff⟩ bFour 1).1.1
        (getMove envZero ⟨diff⟩ bFour 1).1.2 1) 1 = true :=
  ⟨⟨by decide, Or.inl rfl, by decide, by decide,
    by set_option maxRecDepth 40000 in decide⟩,
   getMove_immediate_win envZero bFour 1 (by decide) (Or.inl rfl)
     ⟨((7 : Int), (4 : Int)), by decide, by decide,
      by set_option maxRecDepth 40000 in decide⟩⟩

theorem genVisit_hasStone_eq (b : Board) (r : Int) (st : GenSt) (i j : Int) :
    (genVisit b r st i j).hasStone =
      (if getCell b i j ≠ EMPTY then true else st.hasStone) := by
  unfold genVisit
  split
  · rw [probeFold_hasStone]
  · rfl

theorem visitFold_hasStone_exists (b : Board) (r : Int) :
    ∀ (l : List (Int × Int)) (st : GenSt),
      (l.foldl (fun st c => genVisit b r st c.1 c.2) st).hasStone = true →
      st.hasStone = true ∨ ∃ c ∈ l, getCell b c.1 c.2 ≠ EMPTY := by
  intro l
  induction l with
  | nil => exact fun st h => Or.inl h
  | cons c t ih =>
    intro st h
    rw [List.foldl_cons] at h
    rcases ih _ h with h' | ⟨c', hc', hne⟩
    · rw [genVisit_hasStone_eq] at h'
      by_cases hc : getCell b c.1 c.2 ≠ EMPTY
      · exact Or.inr ⟨c, List.mem_cons_self c t, hc⟩
      · rw [if_neg hc] at h'
        exact Or.inl h'
    · exact Or.inr ⟨c', List.mem_cons_of_mem c hc', hne⟩

theorem visitFold_hasStone_of_stone (b : Board) (r : Int) :
    ∀ (l : List (Int × Int)) (st : GenSt) (c : Int × Int), c ∈ l →
      getCell b c.1 c.2 ≠ EMPTY →
      (l.foldl (fun st c => genVisit b r st c.1 c.2) st).hasStone = true := by
  intro l
  induction l with
  | nil => exact fun st c hc _ => absurd hc (List.not_mem_nil c)
  | cons c0 t ih =>
    intro st c hc hne
    rw [List.foldl_cons]
    rcases List.mem_cons.1 hc with rfl | hmem
    · exact visitFold_hasStone_mono b r t _ (genVisit_hasStone_of_stone b r st c.1 c.2 hne)
    · exact ih _ c hmem hne


theorem generateCandidates_nonempty (b : Board) (r : Int) (hwf : WF b = true) (hr : 1 ≤ r)
    (hempty : ∃ t : Int × Int, inBounds t.1 t.2 = true ∧ getCell b t.1 t.2 = EMPTY) :
    generateCandidates b r ≠ [] := by
  simp only [generateCandidates]
  split
  · next hst =>
    obtain ⟨c, hc, hcne⟩ :=
      (visitFold_hasStone_exists b r cellIdxs ⟨[], [], false⟩ hst).resolve_left (by simp)
    obtain ⟨t, htin, hte⟩ := hempty
    obtain ⟨u, huin, hue, di, dj, hdi, hdj, hust⟩ :=
      exists_adjacent_empty b hwf _ c t rfl hcne htin hte
    have hu : u ∈ generateCandidates b r :=
      generateCandidates_complete b r (by omega) u huin hue
        (u.1 + di) (u.2 + dj) (getCell_ne_empty_inBounds hust) hust
        (by omega) (by omega) (by omega) (by omega)
    simp only [generateCandidates] at hu
    rw [if_pos hst] at hu
    exact List.ne_nil_of_mem hu
  · simp


theorem center_empty_of_no_stone (b : Board) (r : Int)
    (hst : ¬ (cellIdxs.foldl (fun st c => genVisit b r st c.1 c.2)
      (⟨[], [], false⟩ : GenSt)).hasStone = true) :
    getCell b CENTER CENTER = EMPTY := by
  by_contra hc
  exact hst (visitFold_hasStone_of_stone b r cellIdxs ⟨[], [], false⟩
    ((CENTER : Int), (CENTER : Int)) (by decide) hc)

theorem easyWinScan_mem (p : Nat) :
    ∀ (l : List Move) (b : Board) (c : Move),
      (easyWinScan p l b).1 = some c → c ∈ l := by
  intro l
  induction l with
  | nil =>
    intro b c h
    simp [easyWinScan] at h
  | cons c0 t ih =>
    intro b c h
    simp only [easyWinScan] at h
    split at h
    · obtain rfl : c0 = c := by simpa using h
      exact List.mem_cons_self c0 t
    · exact List.mem_cons_of_mem c0 (ih _ c h)

theorem easyBlockScan_mem (env : Env) (opp : Nat) :
    ∀ (l : List Move) (ri : Nat) (b : Board) (c : Move),
      (easyBlockScan env opp l ri b).1 = some c → c ∈ l := by
  intro l
  induction l with
  | nil =>
    intro ri b c h
    simp [easyBlockScan] at h
  | cons c0 t ih =>
    intro ri b c h
    simp only [easyBlockScan] at h
    split at h
    · split at h
      · obtain rfl : c0 = c := by simpa using h
        exact List.mem_cons_self c0 t
      · exact List.mem_cons_of_mem c0 (ih _ _ c h)
    · exact List.mem_cons_of_mem c0 (ih _ _ c h)

theorem weightedPick_mem :
    ∀ (l : List (Move × ℚ)) (rand : ℚ) (m : Move),
      weightedPick l rand = some m → ∃ pr ∈ l, m = pr.1 := by
  intro l
  induction l with
  | nil =>
    intro rand m h
    simp [weightedPick] at h
  | cons c t ih =>
    intro rand m h
    simp only [weightedPick] at h
    split at h
    · obtain rfl : c.1 = m := by simpa using h
      exact ⟨c, List.mem_cons_self c t, rfl⟩
    · obtain ⟨pr, hpr, he⟩ := ih _ m h
      exact ⟨pr, List.mem_cons_of_mem c hpr, he⟩

theorem randPick_mem (env : Env) (l : List Move) (hne : l ≠ [])
    (hrng : 0 ≤ env.rng 0 ∧ env.rng 0 < 1) : randPick env l ∈ l := by
  simp only [randPick]
  apply list_getD_mem
  have hlen : 0 < l.length := List.length_pos.2 hne
  have hlq : (0 : ℚ) < (l.length : ℚ) := by exact_mod_cast hlen
  have h1 : env.rng 0 * (l.length : ℚ) < (l.length : ℚ) := by
    nlinarith [hrng.1, hrng.2]
  have h0 : (0 : ℚ) ≤ env.rng 0 * (l.length : ℚ) := mul_nonneg hrng.1 (le_of_lt hlq)
  have hf : (env.rng 0 * (l.length : ℚ)).floor < (l.length : Int) := by
    have hle : ((env.rng 0 * (l.length : ℚ)).floor : ℚ) ≤ env.rng 0 * (l.length : ℚ) :=
      Int.floor_le _
    have : ((env.rng 0 * (l.length : ℚ)).floor : ℚ) < (l.length : ℚ) := lt_of_le_of_lt hle h1
    exact_mod_cast this
  have hf0 : 0 ≤ (env.rng 0 * (l.length : ℚ)).floor := Int.floor_nonneg.2 h0
  omega

theorem findBestMove_empty (env : Env) (s : SState) (b : Board) (player : Nat)
    (depth tl : Nat) (adv : Bool) (hwf : WF b = true)
    (hempty : ∃ t : Int × Int, inBounds t.1 t.2 = true ∧ getCell b t.1 t.2 = EMPTY) :
    inBounds (findBestMove env s b player depth tl adv).1.1
      (findBestMove env s b player depth tl adv).1.2 = true ∧
    getCell b (findBestMove env s b player depth tl adv).1.1
      (findBestMove env s b player depth tl adv).1.2 = EMPTY := by
  obtain ⟨_, hmem⟩ := findBestMove_spec env s b player depth tl adv hwf
  rcases hmem with ⟨hnil, _⟩ | ⟨sm, hsm, heq⟩
  · exfalso
    have hcne := generateCandidates_nonempty b 2 hwf (by norm_num) hempty
    obtain ⟨m, hm⟩ := List.exists_mem_of_ne_nil _ hcne
    obtain ⟨sm, hsm, _, _⟩ := getOrderedMoves_complete b player 2 m hm
    rw [hnil] at hsm
    exact absurd hsm (List.not_mem_nil sm)
  · rw [heq]
    exact getOrderedMoves_sound hsm

theorem findBestMoveIterative_empty (env : Env) (s : SState) (b : Board) (player : Nat)
    (maxDepth tl : Nat) (adv : Bool) (hwf : WF b = true)
    (hempty : ∃ t : Int × Int, inBounds t.1 t.2 = true ∧ getCell b t.1 t.2 = EMPTY) :
    inBounds (findBestMoveIterative env s b player maxDepth tl adv).1.1
      (findBestMoveIterative env s b player maxDepth tl adv).1.2 = true ∧
    getCell b (findBestMoveIterative env s b player maxDepth tl adv).1.1
      (findBestMoveIterative env s b player maxDepth tl adv).1.2 = EMPTY := by
  obtain ⟨_, hmem⟩ := findBestMoveIterative_spec env s b player maxDepth tl adv hwf
  rcases hmem with ⟨hnil, _⟩ | ⟨sm, hsm, heq⟩
  · exfalso
    have hcne := generateCandidates_nonempty b 2 hwf (by norm_num) hempty
    obtain ⟨m, hm⟩ := List.exists_mem_of_ne_nil _ hcne
    obtain ⟨sm, hsm, _, _⟩ := getOrderedMoves_complete b player 2 m hm
    rw [hnil] at hsm
    exact absurd hsm (List.not_mem_nil sm)
  · rw [heq]
    exact getOrderedMoves_sound hsm

theorem easyMove_empty (env : Env) (b : Board) (p : Nat) (hwf : WF b = true)
    (hempty : ∃ t : Int × Int, inBounds t.1 t.2 = true ∧ getCell b t.1 t.2 = EMPTY) :
    inBounds (easyMove env b p).1.1 (easyMove env b p).1.2 = true ∧
    getCell b (easyMove env b p).1.1 (easyMove env b p).1.2 = EMPTY := by
  simp only [easyMove]
  rcases hcands : generateCandidates b 1 with _ | ⟨c0, crest⟩
  · exact absurd hcands (generateCandidates_nonempty b 1 hwf le_rfl hempty)
  · have hall : ∀ c ∈ c0 :: crest, inBounds c.1 c.2 = true ∧ getCell b c.1 c.2 = EMPTY :=
      fun c hc => generateCandidates_sound b 1 c (hcands ▸ hc)
    dsimp only
    rcases hws : easyWinScan p (c0 :: crest) b with ⟨w, b2⟩
    rcases w with _ | cw
    · dsimp only
      rcases hbs : easyBlockScan env (opponent p) (c0 :: crest) 0 b2 with ⟨w2, ri, b3⟩
      rcases w2 with _ | cb
      · dsimp only
        rcases hwp : weightedPick ((c0 :: crest).map
            (fun c => (c, (max 1 (15 - centerDist c.1 c.2) : ℚ))))
            (env.rng ri * (((c0 :: crest).map
              (fun c => (c, (max 1 (15 - centerDist c.1 c.2) : ℚ)))).foldl
                (fun sum c => sum + c.2) 0)) with _ | m
        · dsimp only
          simp only [List.map_cons, List.headI]
          exact hall c0 (List.mem_cons_self c0 crest)
        · dsimp only
          obtain ⟨pr, hpr, rfl⟩ := weightedPick_mem _ _ m hwp
          obtain ⟨c, hc, rfl⟩ := List.mem_map.1 hpr
          exact hall c hc
      · dsimp only
        have hmem := easyBlockScan_mem env (opponent p) (c0 :: crest) 0 b2 cb (by rw [hbs])
        exact hall cb hmem
    · dsimp only
      have hmem := easyWinScan_mem p (c0 :: crest) b cw (by rw [hws])
      exact hall cw hmem

theorem center_empty_of_countStones_zero {b : Board} (h : countStones b = 0) :
    getCell b CENTER CENTER = EMPTY := by
  simp only [countStones, List.countP_eq_zero] at h
  have := h ((CENTER : Int), (CENTER : Int)) (by decide)
  simpa using this

theorem masterMove_empty (env : Env) (b : Board) (p : Nat) (hwf : WF b = true)
    (hempty : ∃ t : Int × Int, inBounds t.1 t.2 = true ∧ getCell b t.1 t.2 = EMPTY)
    (hrng : ∀ i, 0 ≤ env.rng i ∧ env.rng i < 1) :
    inBounds (masterMove env b p).1.1 (masterMove env b p).1.2 = true ∧
    getCell b (masterMove env b p).1.1 (masterMove env b p).1.2 = EMPTY := by
  have hIB : inBounds (CENTER : Int) (CENTER : Int) = true := by decide
  simp only [masterMove]
  split_ifs with h0 h1 hv1 h2 h3 hv3
  · exact ⟨hIB, center_empty_of_countStones_zero h0⟩
  · have hne : bookDiagMoves.filter (fun m => getCell b m.1 m.2 == EMPTY) ≠ [] := by
      intro hnil
      rw [hnil] at hv1
      simp at hv1
    have hmem := randPick_mem env _ hne (hrng 0)
    obtain ⟨hd, he⟩ := List.mem_filter.1 hmem
    have hdm : ∀ m ∈ bookDiagMoves, inBounds m.1 m.2 = true := by decide
    exact ⟨hdm _ hd, by simpa using he⟩
  · exact findBestMoveIterative_empty env newEngine b p 6 2000 true hwf hempty
  · exact ⟨hIB, h2.2⟩
  · have hne : bookKnightMoves.filter (fun m =>
        0 ≤ m.1 && m.1 < 15 && 0 ≤ m.2 && m.2 < 15 && (getCell b m.1 m.2 == EMPTY)) ≠ [] := by
      intro hnil
      rw [hnil] at hv3
      simp at hv3
    have hmem := randPick_mem env _ hne (hrng 0)
    obtain ⟨hd, he⟩ := List.mem_filter.1 hmem
    simp only [Bool.and_eq_true, decide_eq_true_eq, beq_iff_eq] at he
    exact ⟨inBounds_iff.2 ⟨he.1.1.1.1, he.1.1.1.2, he.1.1.2, he.1.2⟩, he.2⟩
  · exact findBestMoveIterative_empty env newEngine b p 6 2000 true hwf hempty
  · exact findBestMoveIterative_empty env newEngine b p 6 2000 true hwf hempty

/-- C3: for every well-formed board with at least one empty cell, every
player, and every stored difficulty (including unrecognized strings, which
dispatch to the medium policy), `getMove` returns the coordinates of an
in-bounds cell that was empty on the input board — it never returns an
occupied cell and never fails to return a move. The random oracle is
constrained to `[0, 1)` as `Math.random()` guarantees. -/
theorem getMove_always_empty_cell (env : Env) (ai : GomokuAI) (b : Board) (player : Nat)
    (hwf : WF b = true)
    (hempty : ∃ t : Int × Int, inBounds t.1 t.2 = true ∧ getCell b t.1 t.2 = EMPTY)
    (hrng : ∀ i, 0 ≤ env.rng i ∧ env.rng i < 1) :
    inBounds (getMove env ai b player).1.1 (getMove env ai b player).1.2 = true ∧
    getCell b (getMove env ai b player).1.1 (getMove env ai b player).1.2 = EMPTY := by
  have hlen : ¬ b.length = 0 := by
    obtain ⟨h15, _⟩ := WF_split hwf
    omega
  simp only [getMove]
  rw [if_neg hlen]
  split_ifs
  · exact easyMove_empty env b player hwf hempty
  · exact findBestMove_empty env newEngine b player 2 1000 false hwf hempty
  · exact findBestMove_empty env newEngine b player 4 3000 true hwf hempty
  · exact masterMove_empty env b player hwf hempty hrng
  · exact findBestMove_empty env newEngine b player 2 1000 false hwf hempty

theorem getMove_always_empty_cell_witness :
    (WF bOne = true ∧ inBounds (3 : Int) (3 : Int) = true ∧
      getCell bOne 3 3 = EMPTY) ∧
    (inBounds (getMove envZero ⟨"master"⟩ bOne 1).1.1
        (getMove envZero ⟨"master"⟩ bOne 1).1.2 = true ∧
      getCell bOne (getMove envZero ⟨"master"⟩ bOne 1).1.1
        (getMove envZero ⟨"master"⟩ bOne 1).1.2 = EMPTY) :=
  ⟨⟨by decide, by decide, by decide⟩,
   getMove_always_empty_cell envZero ⟨"master"⟩ bOne 1 (by decide)
     ⟨((3 : Int), (3 : Int)), by decide, by decide⟩
     (fun i => ⟨le_rfl, zero_lt_one⟩)⟩

theorem foldl_pick_snd :
    ∀ (l : List (Move × ℚ)) (acc : Move × ℚ),
      (l.foldl (fun acc pr => if pr.2 > acc.2 then pr else acc) acc).2 =
        (l.map Prod.snd).foldl max acc.2 := by
  intro l
  induction l with
  | nil => intro acc; rfl
  | cons p t ih =>
    intro acc
    simp only [List.foldl_cons, List.map_cons]
    rw [ih]
    congr 1
    by_cases hp : p.2 > acc.2
    · rw [if_pos hp]
      exact (max_eq_right (le_of_lt hp)).symm
    · rw [if_neg hp]
      exact (max_eq_left (le_of_not_lt hp)).symm

theorem rootLoop_eq_transcript (env : Env) (player : Nat) (d : Nat) :
    ∀ (l : List ScoredMove) (s : SState) (b : Board) (best : Move) (bs : ℚ),
      rootLoop env player d l s b best bs =
        (((rootTranscript env player d l s b).1.foldl
            (fun acc pr => if pr.2 > acc.2 then pr else acc) (best, bs)).1,
         ((rootTranscript env player d l s b).1.foldl
            (fun acc pr => if pr.2 > acc.2 then pr else acc) (best, bs)).2,
         (rootTranscript env player d l s b).2.1,
         (rootTranscript env player d l s b).2.2) := by
  intro l
  induction l with
  | nil => intro s b best bs; rfl
  | cons m rest ih =>
    intro s b best bs
    simp only [rootLoop, rootTranscript]
    rcases hab : alphabeta env s (setCell b m.x m.y player) d (-INF) INF player
      (opponent player) false with ⟨score, s1, b2⟩
    dsimp only
    by_cases ht : s1.timedOut = true
    · rw [if_pos ht, if_pos ht]
      rfl
    · rw [if_neg ht, if_neg ht]
      dsimp only
      simp only [List.foldl_cons]
      by_cases hgt : score > bs
      · rw [if_pos hgt, if_pos hgt]
        exact ih s1 (setCell b2 m.x m.y EMPTY) (m.x, m.y) score
      · rw [if_neg hgt, if_neg hgt]
        exact ih s1 (setCell b2 m.x m.y EMPTY) best bs

theorem lastCompleted_cons (e : List (Move × ℚ) × Bool) (t : List (List (Move × ℚ) × Bool)) :
    lastCompleted (e :: t) =
      match lastCompleted t with
      | some p => some p
      | none => if e.2 = true then some e.1 else none := by
  simp only [lastCompleted, List.filter_cons]
  by_cases he : e.2 = true
  · rw [if_pos he]
    rcases hft : (t.filter (fun x => x.2)) with _ | ⟨f0, ft⟩
    · simp [hft, he]
    · simp only [hft, he, if_true, List.getLast?_cons_cons]
      rcases hgl : (f0 :: ft).getLast? with _ | x
      · exact absurd hgl (by simp)
      · simp [hgl]
  · rw [if_neg he]
    rcases hlc : ((t.filter (fun x => x.2)).getLast?).map Prod.fst with _ | p
    · rw [hlc]
      simp [he]
    · rw [hlc]

theorem iterLoop_eq_trace (env : Env) (player : Nat) (moves : List ScoredMove) :
    ∀ (r depth : Nat) (s : SState) (b : Board) (best : Option Move),
      iterLoop env player moves r depth s b best =
        ((match lastCompleted (iterTrace env player moves r depth s b).1 with
          | some pairs => some (selBest pairs
              ((moves.take 20).headI.x, (moves.take 20).headI.y))
          | none => best),
         (iterTrace env player moves r depth s b).2.1,
         (iterTrace env player moves r depth s b).2.2) := by
  intro r
  induction r with
  | zero => intro depth s b best; rfl
  | succ n ih =>
    intro depth s b best
    simp only [iterLoop, iterTrace]
    rw [rootLoop_eq_transcript env player (depth - 1) (moves.take 20)
      { s with nodesSearched := 0, timedOut := false } b
      ((moves.take 20).headI.x, (moves.take 20).headI.y) (-INF)]
    rcases hrt : rootTranscript env player (depth - 1) (moves.take 20)
      { s with nodesSearched := 0, timedOut := false } b with ⟨pairs, s2, b2⟩
    dsimp only
    rw [foldl_pick_snd]
    dsimp only
    by_cases hwin : (pairs.map Prod.snd).foldl max (-INF) ≥ WIN_SCORE
    · rw [if_pos hwin, if_pos hwin]
      congr 1
      by_cases htmo : s2.timedOut = true
      · simp [lastCompleted, htmo]
      · rw [Bool.not_eq_true] at htmo
        simp [lastCompleted, htmo, selBest]
    · rw [if_neg hwin, if_neg hwin]
      by_cases htl : 10 * ((callNow env s2).1 - (callNow env s2).2.startTime) >
          7 * (callNow env s2).2.timeLimit
      · rw [if_pos htl, if_pos htl]
        congr 1
        by_cases htmo : s2.timedOut = true
        · simp [lastCompleted, htmo]
        · rw [Bool.not_eq_true] at htmo
          simp [lastCompleted, htmo, selBest]
      · rw [if_neg htl, if_neg htl]
        rw [ih]
        rw [lastCompleted_cons]
        rcases hlc : lastCompleted
            (iterTrace env player moves n (depth + 1) (callNow env s2).2 b2).1 with _ | p
        · dsimp only
          congr 1
          by_cases htmo : s2.timedOut = true
          · simp [htmo]
          · rw [Bool.not_eq_true] at htmo
            simp [htmo, selBest]
        · rfl

theorem foldl_pick_spec :
    ∀ (pairs : List (Move × ℚ)) (acc : Move × ℚ),
      (∃ l1 pr l2, pairs = l1 ++ pr :: l2 ∧
          pairs.foldl (fun acc pr => if pr.2 > acc.2 then pr else acc) acc = pr ∧
          acc.2 < pr.2 ∧ (∀ q ∈ l1, q.2 < pr.2) ∧ (∀ q ∈ l2, q.2 ≤ pr.2)) ∨
      ((∀ q ∈ pairs, q.2 ≤ acc.2) ∧
        pairs.foldl (fun acc pr => if pr.2 > acc.2 then pr else acc) acc = acc) := by
  intro pairs
  induction pairs with
  | nil => exact fun acc => Or.inr ⟨fun q hq => absurd hq (List.not_mem_nil q), rfl⟩
  | cons p t ih =>
    intro acc
    simp only [List.foldl_cons]
    by_cases hp : p.2 > acc.2
    · rw [if_pos hp]
      rcases ih p with ⟨l1, pr, l2, hsplit, heq, hgt, hl1, hl2⟩ | ⟨hall, heq⟩
      · refine Or.inl ⟨p :: l1, pr, l2, by rw [hsplit]; rfl, heq, lt_trans hp hgt, ?_, hl2⟩
        intro q hq
        rcases List.mem_cons.1 hq with rfl | hq'
        · exact hgt
        · exact hl1 q hq'
      · exact Or.inl ⟨[], p, t, rfl, heq, hp,
          fun q hq => absurd hq (List.not_mem_nil q), hall⟩
    · rw [if_neg hp]
      have hple : p.2 ≤ acc.2 := le_of_not_lt hp
      rcases ih acc with ⟨l1, pr, l2, hsplit, heq, hgt, hl1, hl2⟩ | ⟨hall, heq⟩
      · refine Or.inl ⟨p :: l1, pr, l2, by rw [hsplit]; rfl, heq, hgt, ?_, hl2⟩
        intro q hq
        rcases List.mem_cons.1 hq with rfl | hq'
        · exact lt_of_le_of_lt hple hgt
        · exact hl1 q hq'
      · refine Or.inr ⟨?_, heq⟩
        intro q hq
        rcases List.mem_cons.1 hq with rfl | hq'
        · exact hple
        · exact hall q hq'

theorem selBest_bestRootMove (pairs : List (Move × ℚ)) (dflt : Move)
    (hne : pairs ≠ []) (hh : pairs.headI.1 = dflt) :
    BestRootMove pairs (selBest pairs dflt) := by
  simp only [selBest, BestRootMove]
  rcases foldl_pick_spec pairs (dflt, -INF) with
    ⟨l1, pr, l2, hsplit, heq, hgt, hl1, hl2⟩ | ⟨hall, heq⟩
  · exact Or.inl ⟨l1, pr, l2, hsplit, by rw [heq], hgt, hl1, hl2⟩
  · exact Or.inr ⟨hall, hne, by rw [heq, ← hh]⟩

theorem rootTranscript_completed_head (env : Env) (player : Nat) (d : Nat)
    (m : ScoredMove) (rest : List ScoredMove) (s : SState) (b : Board)
    (pairs : List (Move × ℚ)) (s2 : SState) (b2 : Board)
    (heq : rootTranscript env player d (m :: rest) s b = (pairs, s2, b2))
    (h : s2.timedOut = false) : ∃ sc t, pairs = ((m.x, m.y), sc) :: t := by
  simp only [rootTranscript] at heq
  rcases hab : alphabeta env s (setCell b m.x m.y player) d (-INF) INF player
    (opponent player) false with ⟨score, s1, b3⟩
  rw [hab] at heq
  dsimp only at heq
  by_cases ht : s1.timedOut = true
  · rw [if_pos ht] at heq
    rw [Prod.mk.injEq, Prod.mk.injEq] at heq
    rw [← heq.2.1] at h
    rw [ht] at h
    exact absurd h (by decide)
  · rw [if_neg ht] at heq
    rw [Prod.mk.injEq] at heq
    exact ⟨score, _, heq.1.symm⟩

theorem lastCompleted_mem {tr : List (List (Move × ℚ) × Bool)} {pairs : List (Move × ℚ)}
    (h : lastCompleted tr = some pairs) : ∃ e ∈ tr, e.2 = true ∧ e.1 = pairs := by
  simp only [lastCompleted, Option.map_eq_some'] at h
  obtain ⟨e, hgl, hfst⟩ := h
  have hmem : e ∈ tr.filter (fun x => x.2) := by
    obtain ⟨hne, heq⟩ := List.mem_getLast?_eq_getLast (Option.mem_def.2 hgl)
    rw [heq]
    exact List.getLast_mem hne
  obtain ⟨hmem', hflag⟩ := List.mem_filter.1 hmem
  exact ⟨e, hmem', by simpa using hflag, hfst⟩

theorem iterTrace_completed_entry (env : Env) (player : Nat) (m0 : ScoredMove)
    (rest : List ScoredMove) :
    ∀ (r depth : Nat) (s : SState) (b : Board),
      ∀ e ∈ (iterTrace env player (m0 :: rest) r depth s b).1, e.2 = true →
        ∃ sc t, e.1 = ((m0.x, m0.y), sc) :: t := by
  intro r
  induction r with
  | zero =>
    intro depth s b e he _
    simp [iterTrace] at he
  | succ n ih =>
    intro depth s b e he hflag
    simp only [iterTrace] at he
    rcases hrt : rootTranscript env player (depth - 1) ((m0 :: rest).take 20)
      { s with nodesSearched := 0, timedOut := false } b with ⟨pairs, s2, b2⟩
    rw [hrt] at he
    rw [show (m0 :: rest).take 20 = m0 :: rest.take 19 from rfl] at hrt
    have hhead : e = (pairs, !s2.timedOut) → ∃ sc t, e.1 = ((m0.x, m0.y), sc) :: t := by
      rintro rfl
      have hf2 : s2.timedOut = false := by
        dsimp only at hflag
        simpa using hflag
      obtain ⟨sc, t, hp⟩ := rootTranscript_completed_head env player (depth - 1) m0
        (rest.take 19) { s with nodesSearched := 0, timedOut := false } b pairs s2 b2 hrt hf2
      exact ⟨sc, t, hp⟩
    split at he
    · dsimp only at he
      rw [List.mem_singleton] at he
      exact hhead he
    · split at he
      · dsimp only at he
        rw [List.mem_singleton] at he
        exact hhead he
      · dsimp only at he
        rcases List.mem_cons.1 he with rfl | hmem
        · exact hhead rfl
        · exact ih (depth + 1) (callNow env s2).2 b2 e hmem hflag

/-- C6: whenever the root candidate list is non-empty and neither immediate
probe fires (no root placement wins outright for either side), the iterative
driver returns exactly the best root move of the deepest depth that completed
without timing out — the earliest strictly-best root score of that depth's
transcript, per `BestRootMove`; a depth cut short by a time-out contributes a
non-completed transcript entry and cannot overwrite the answer; and if no
depth completes at all, the driver returns the first (highest
heuristic-ordered) root candidate rather than no move. -/
theorem findBestMoveIterative_deepest_completed (env : Env) (s : SState) (b : Board)
    (player : Nat) (maxDepth tl : Nat) (adv : Bool) (hwf : WF b = true)
    (m0 : ScoredMove) (rest : List ScoredMove)
    (hmoves : getOrderedMoves b player 2 = m0 :: rest)
    (hnowin : ∀ sm ∈ m0 :: rest,
      checkWin (setCell b sm.x sm.y player) player = false)
    (hnoblock : ∀ sm ∈ m0 :: rest,
      checkWin (setCell b sm.x sm.y (opponent player)) (opponent player) = false) :
    match lastCompleted (iterativeTrace env s b player maxDepth tl adv) with
    | some pairs =>
        BestRootMove pairs (findBestMoveIterative env s b player maxDepth tl adv).1
    | none =>
        (findBestMoveIterative env s b player maxDepth tl adv).1 = ((m0.x, m0.y) : Move) := by
  have hl : ∀ sm ∈ m0 :: rest, inBounds sm.x sm.y = true ∧ getCell b sm.x sm.y = EMPTY := by
    intro sm hsm
    exact getOrderedMoves_sound (by rw [hmoves]; exact hsm)
  obtain ⟨hpb, hpsome, _⟩ := probeScan_spec player (m0 :: rest) b hwf hl
  obtain ⟨hqb, hqsome, _⟩ := probeScan_spec (opponent player) (m0 :: rest) b hwf hl
  have hw1 : (probeScan player (m0 :: rest) b).1 = none := by
    rcases hps0 : (probeScan player (m0 :: rest) b).1 with _ | mv
    · rfl
    · exfalso
      obtain ⟨⟨sm, hsm, rfl⟩, hwin⟩ := hpsome mv hps0
      have h2 := hnowin sm hsm
      dsimp only at hwin
      rw [h2] at hwin
      exact absurd hwin (by decide)
  have hw2 : (probeScan (opponent player) (m0 :: rest) b).1 = none := by
    rcases hps0 : (probeScan (opponent player) (m0 :: rest) b).1 with _ | mv
    · rfl
    · exfalso
      obtain ⟨⟨sm, hsm, rfl⟩, hwin⟩ := hqsome mv hps0
      have h2 := hnoblock sm hsm
      dsimp only at hwin
      rw [h2] at hwin
      exact absurd hwin (by decide)
  simp only [findBestMoveIterative, iterativeTrace]
  rw [hmoves]
  dsimp only
  rcases hps : probeScan player (m0 :: rest) b with ⟨w, b2⟩
  rw [hps] at hpb hw1
  obtain rfl : w = none := hw1
  rw [hpb]
  dsimp only
  rcases hqs : probeScan (opponent player) (m0 :: rest) b with ⟨w2, b3⟩
  rw [hqs] at hqb hw2
  obtain rfl : w2 = none := hw2
  rw [hqb]
  dsimp only
  rw [iterLoop_eq_trace env player (m0 :: rest)]
  split
  · next pairs hlc =>
    dsimp only
    obtain ⟨e, he, hflag, hefst⟩ := lastCompleted_mem hlc
    obtain ⟨sc, t, hp⟩ := iterTrace_completed_entry env player m0 rest maxDepth 1 _ b
      e he hflag
    rw [hefst] at hp
    have hne : pairs ≠ [] := by
      rw [hp]
      exact List.cons_ne_nil _ _
    have hh : pairs.headI.1 =
        ((((m0 :: rest).take 20).headI.x, ((m0 :: rest).take 20).headI.y) : Move) := by
      rw [hp]
      rfl
    exact selBest_bestRootMove pairs _ hne hh
  · next hlc =>
    rfl

theorem findBestMoveIterative_deepest_completed_witness :
    (WF bDraw = true ∧
      getOrderedMoves bDraw 1 2 = [ScoredMove.mk 0 0 (scoreMoveQuick bDraw 0 0 1)] ∧
      checkWin (setCell bDraw 0 0 1) 1 = false ∧
      checkWin (setCell bDraw 0 0 2) 2 = false) ∧
    (findBestMoveIterative envZero newEngine bDraw 1 0 50 false).1 =
      (((0 : Int), (0 : Int)) : Move) := by
  have hc : generateCandidates bDraw 2 = [((0 : Int), (0 : Int))] := by
    set_option maxRecDepth 100000 in decide
  have hmoves : getOrderedMoves bDraw 1 2 =
      [ScoredMove.mk 0 0 (scoreMoveQuick bDraw 0 0 1)] := by
    simp [getOrderedMoves, hc]
  have hnw : checkWin (setCell bDraw 0 0 1) 1 = false := by
    set_option maxRecDepth 100000 in decide
  have hnb : checkWin (setCell bDraw 0 0 2) 2 = false := by
    set_option maxRecDepth 100000 in decide
  refine ⟨⟨by decide, hmoves, hnw, hnb⟩, ?_⟩
  exact findBestMoveIterative_deepest_completed envZero newEngine bDraw 1 0 50 false
    (by decide) (ScoredMove.mk 0 0 (scoreMoveQuick bDraw 0 0 1)) [] hmoves
    (by
      intro sm hsm
      rw [List.mem_singleton] at hsm
      subst hsm
      exact hnw)
    (by
      intro sm hsm
      rw [List.mem_singleton] at hsm
      subst hsm
      exact hnb)

end AI
